import Mathlib

/-!
# Symbol lookup (`src/mesalib/src/util/u_debug_symbol.c`)

A shallow embedding of the symbol-resolution backend and proofs of its
properties.

The embedded configuration is the Windows desktop build (`DETECT_OS_WINDOWS`
set, `_GAMING_XBOX` not set); `DETECT_CC_GCC` is a field of the environment.

* The C statics (`g_bSymInitialized`, `hModule`, `bail`, the `pfn` of every
  dispatch shim, `symbols_hash`) are the fields of `State`.
* Everything outside the file (Win32 loader, the DbgHelp entry points, the
  module queries, `debug_get_bool_option`, the `%p` conversion of the C
  library) is a field of `World`; each call threads an arbitrary external
  state `σ`, so answers may change from one call to the next.
* `State.log` is a ghost trace of the calls made; it never influences a result.
* Pointers, handles and `BOOL`/`DWORD` values are `Nat`, `0` being `NULL`;
  characters are `Char`, strings are `List Char`, and `%s` reads a string up to
  the first NUL (`cstr`).
* A buffer is written through a list of `(index, byte)` stores, applied to a
  memory `Nat → Char` by `store`; `snprintf` follows C99.
* The longer functions are cut at their blocks, each a definition named after
  what the block does, with its source lines: `initSession`, `moduleFallback`
  and `symbolFormat` make `debug_symbol_name_dbghelp`; `ensureTable` and
  `searchOrInsert` make `debug_symbol_name_cached`.
* `hProcess` is the constant `GetCurrentProcess()` and is not passed around.
-/

namespace DebugSymbol

/-! ## Characters, C strings, buffers -/

/-- The terminator byte. -/
def NUL : Char := Char.ofNat 0

/-- The C string that starts at the first byte of `bytes`: `%s` and `strdup`
stop at the first NUL. -/
def cstr (bytes : List Char) : List Char :=
  bytes.takeWhile (fun c => c != NUL)

/-- A store of one byte at an index of the destination buffer. -/
abbrev Write := Nat × Char

/-- Memory seen from the start of a buffer. -/
abbrev Mem := Nat → Char

/-- Stores of the characters `cs` at consecutive indices from `i`. -/
def writesFrom : Nat → List Char → List Write
  | _, [] => []
  | i, c :: cs => (i, c) :: writesFrom (i + 1) cs

/-- C99 `snprintf(buf, size, ...)`, given the complete formatted `text`: with
`size = 0` nothing is stored; otherwise the first `min (length text) (size - 1)`
characters are stored, followed by the terminator. -/
def snprintf (size : Nat) (text : List Char) : List Write :=
  if size = 0 then []
  else
    let k := min text.length (size - 1)
    writesFrom 0 (text.take k) ++ [(k, NUL)]

/-- Memory after the stores `ws`, performed in order. -/
def store (m : Mem) (ws : List Write) : Mem :=
  ws.foldl (fun m w => Function.update m w.1 w.2) m

/-- The string a reader finds in a buffer of capacity `n`: the bytes before
the first NUL among the first `n`. -/
def bufString (m : Mem) (n : Nat) : List Char :=
  cstr ((List.range n).map m)

/-- Conversion `%lx`: lowercase hexadecimal, no padding. -/
def fmt_lx (v : Nat) : List Char := Nat.toDigits 16 v

/-- Conversion `%lu`: decimal. -/
def fmt_lu (v : Nat) : List Char := Nat.toDigits 10 v

/-- Width of `unsigned long` (and of `DWORD`) on Windows. -/
def ULONG_BITS : Nat := 32

/-- Value of `sizeof buffer` in `debug_symbol_name_dbghelp`. -/
def SIZEOF_BUFFER : Nat := 512

/-- Flag `SYMOPT_LOAD_LINES` of `dbghelp.h`. -/
def SYMOPT_LOAD_LINES : Nat := 0x10

/-! ## Environment and state -/

/-- The DbgHelp entry points that have a dispatch shim. -/
inductive Proc
  | SymInitialize
  | SymSetOptions
  | SymFromAddr
  | SymGetLineFromAddr64
  | SymCleanup
  deriving DecidableEq, Repr

/-- Ghost trace of the calls made. -/
inductive Event
  /-- A call of `getDbgHelpProcAddress(name)`. -/
  | loader (p : Proc)
  /-- A call of `LoadLibraryA`. -/
  | loadLibrary (dll : String)
  /-- The `_debug_printf` warning about `mgwhelp.dll`. -/
  | warning
  /-- A call of `GetProcAddress(hModule, name)`. -/
  | getProc (p : Proc)
  /-- A call through the pointer of shim `j_<p>`: the provider entry point runs. -/
  | call (p : Proc)
  /-- A call of `debug_get_bool_option("GALLIUM_SYMBOL_FORCE_REINIT", false)`. -/
  | getOption
  /-- A call of `GetModuleHandleEx` for an address. -/
  | moduleHandle (addr : Nat)
  /-- A call of `GetModuleFileNameA` for a module. -/
  | moduleFileName (hModule : Nat)
  /-- A call of `snprintf(buf, size, ...)` whose complete formatted text is `text`. -/
  | snprintf (size : Nat) (text : List Char)
  /-- An entry into `debug_symbol_name(addr, ...)`. -/
  | resolve (addr : Nat)
  deriving DecidableEq

/-- Events emitted while `getDbgHelpProcAddress(p)` loads the library and looks `p` up. -/
def Event.ofLoad (p : Proc) : Event → Bool
  | .loadLibrary _ => true
  | .warning => true
  | .getProc q => decide (q = p)
  | _ => false

/-- Events emitted by shim `j_<p>`. -/
def Event.ofShim (p : Proc) : Event → Bool
  | .loader q => decide (q = p)
  | .call q => decide (q = p)
  | e => e.ofLoad p


/-- Calls of the provider's initialize-session, set-options and cleanup-session
entry points. -/
def Event.isSessionCall : Event → Bool
  | .call .SymInitialize => true
  | .call .SymSetOptions => true
  | .call .SymCleanup => true
  | _ => false

/-- Queries of the module fallback. -/
def Event.isModuleQuery : Event → Bool
  | .moduleHandle _ => true
  | .moduleFileName _ => true
  | _ => false

/-- Calls of `snprintf`. -/
def Event.isSnprintf : Event → Bool
  | .snprintf _ _ => true
  | _ => false

/-- Entries into `debug_symbol_name`. -/
def Event.isResolve : Event → Bool
  | .resolve _ => true
  | _ => false

/-- Events of the session start (lines 176-189). -/
def Event.ofSession : Event → Bool
  | .getOption => true
  | e => e.ofShim .SymCleanup || e.ofShim .SymSetOptions || e.ofShim .SymInitialize

/-- Events of the lookup proper (lines 191-231). -/
def Event.ofLookup : Event → Bool
  | .moduleHandle _ => true
  | .moduleFileName _ => true
  | .snprintf _ _ => true
  | e => e.ofShim .SymFromAddr || e.ofShim .SymGetLineFromAddr64

/-- Events of `debug_symbol_name_dbghelp`. -/
def Event.ofDbghelp (e : Event) : Bool := e.ofSession || e.ofLookup

/-- What the file calls but does not define. `σ` is the state of the outside
world; every call may read and change it. -/
structure World (σ : Type) where
  /-- Compile-time `DETECT_CC_GCC`. -/
  DETECT_CC_GCC : Bool
  /-- Width of `uintptr_t` in bits. -/
  ptrBits : Nat
  /-- Conversion `%p` of the C library (implementation-defined). -/
  fmt_p : Nat → List Char
  /-- `LoadLibraryA(name)`: the module handle, `0` on failure. -/
  LoadLibraryA : String → σ → Nat × σ
  /-- `GetProcAddress(hModule, name)`: the entry point, `0` when missing. -/
  GetProcAddress : Nat → Proc → σ → Nat × σ
  /-- The call `pfn(hProcess, NULL, true)` of `j_SymInitialize`, given `pfn`. -/
  SymInitialize : Nat → σ → Bool × σ
  /-- The call `pfn(SymOptions)` of `j_SymSetOptions`, given `pfn` and `SymOptions`. -/
  SymSetOptions : Nat → Nat → σ → Nat × σ
  /-- The call `pfn(hProcess, Address, &disp, pSymbol)` of `j_SymFromAddr`, given
  `pfn` and `Address`: the result and the bytes left in `pSymbol->Name`. -/
  SymFromAddr : Nat → Nat → σ → (Bool × List Char) × σ
  /-- The call `pfn(hProcess, dwAddr, &disp, &Line)` of `j_SymGetLineFromAddr64`,
  given `pfn` and `dwAddr`: the result, `Line.FileName` (`none` is `NULL`) and
  `Line.LineNumber`. -/
  SymGetLineFromAddr64 : Nat → Nat → σ → (Bool × Option (List Char) × Nat) × σ
  /-- The call `pfn(hProcess)` of `j_SymCleanup`, given `pfn`. -/
  SymCleanup : Nat → σ → Bool × σ
  /-- `debug_get_bool_option("GALLIUM_SYMBOL_FORCE_REINIT", false)`. -/
  debug_get_bool_option : σ → Bool × σ
  /-- `GetModuleHandleEx(FROM_ADDRESS, addr, &hModule)`: the result and `hModule`. -/
  GetModuleHandleEx : Nat → σ → (Bool × Nat) × σ
  /-- `GetModuleFileNameA(hModule, buffer, sizeof buffer)`: the returned length
  and the bytes of `buffer` after the call. -/
  GetModuleFileNameA : Nat → σ → (Nat × List Char) × σ
  /-- Bytes found in the uninitialised `char buf[1024]` of `debug_symbol_name_cached`. -/
  stack : σ → Mem

/-- Modelled from the spec: the mapping container of `util/hash_table.h`, which
is not among the sources, "mapping from pointer key to owned string,
insert-if-absent semantics". An entry is `(key, data)`. -/
abbrev hash_table := List (Nat × Nat)

/-- Modelled from the spec: `_mesa_pointer_hash_table_create(NULL)`, an empty
mapping. -/
def _mesa_pointer_hash_table_create : hash_table := []

/-- Modelled from the spec: `_mesa_hash_table_search(ht, key)`, the entry stored
for `key`, if any. -/
def _mesa_hash_table_search (ht : hash_table) (key : Nat) : Option (Nat × Nat) :=
  ht.find? (fun e => e.1 == key)

/-- Modelled from the spec: `_mesa_hash_table_insert(ht, key, data)` with
insert-if-absent semantics: the new table and the entry for `key`. -/
def _mesa_hash_table_insert (ht : hash_table) (key data : Nat) :
    hash_table × (Nat × Nat) :=
  match _mesa_hash_table_search ht key with
  | some e => (ht, e)
  | none => ((key, data) :: ht, (key, data))

/-- The statics of the file, the heap of `strdup` copies, the outside world and
the ghost trace. -/
structure State (σ : Type) where
  /-- The outside world. -/
  world : σ
  /-- `static BOOL g_bSymInitialized`. -/
  g_bSymInitialized : Bool
  /-- `static HMODULE hModule` of `getDbgHelpProcAddress`. -/
  hModule : Nat
  /-- `static bool bail` of `getDbgHelpProcAddress`. -/
  bail : Bool
  /-- `static PFN pfn` of each shim `j_<name>`. -/
  pfn : Proc → Nat
  /-- `static struct hash_table* symbols_hash` (`none` is `NULL`). -/
  symbols_hash : Option hash_table
  /-- The blocks returned by `strdup`; the pointer to a block is its index. -/
  heap : List (List Char)
  /-- Ghost trace, oldest event first. -/
  log : List Event

/-- State at process start. -/
def State.init {σ : Type} (w : σ) : State σ :=
  { world := w, g_bSymInitialized := false, hModule := 0, bail := false,
    pfn := fun _ => 0, symbols_hash := none, heap := [], log := [] }

/-- Append an event to the ghost trace. -/
def State.emit {σ : Type} (s : State σ) (e : Event) : State σ :=
  { s with log := s.log ++ [e] }

/-- Run an external call on the world. -/
def State.ext {σ α : Type} (s : State σ) (f : σ → α × σ) : α × State σ :=
  ((f s.world).1, { s with world := (f s.world).2 })

/-! ## `getDbgHelpProcAddress` (lines 64-106) -/

/-- The `#if DETECT_CC_GCC` block: try `mgwhelp.dll`, warn when it is missing. -/
def loadMgwhelp {σ : Type} (W : World σ) (s : State σ) : State σ :=
  if W.DETECT_CC_GCC then
    if s.hModule = 0 then
      let r := (s.emit (.loadLibrary "mgwhelp.dll")).ext (W.LoadLibraryA "mgwhelp.dll")
      let s1 : State σ := { r.2 with hModule := r.1 }
      if s1.hModule = 0 then s1.emit .warning else s1
    else s
  else s

/-- Fallback to the real DbgHelp: `if (!hModule) hModule = LoadLibraryA("dbghelp.dll")`. -/
def loadDbghelp {σ : Type} (W : World σ) (s : State σ) : State σ :=
  if s.hModule = 0 then
    let r := (s.emit (.loadLibrary "dbghelp.dll")).ext (W.LoadLibraryA "dbghelp.dll")
    { r.2 with hModule := r.1 }
  else s

/-- The final `return GetProcAddress(hModule, lpProcName)`. -/
def returnGetProcAddress {σ : Type} (W : World σ) (lpProcName : Proc) (s : State σ) :
    Nat × State σ :=
  (s.emit (.getProc lpProcName)).ext (W.GetProcAddress s.hModule lpProcName)

/-- Lookup the address of a DbgHelp function. -/
def getDbgHelpProcAddress {σ : Type} (W : World σ) (lpProcName : Proc) (s : State σ) :
    Nat × State σ :=
  let s0 := s.emit (.loader lpProcName)
  if s0.hModule = 0 then
    if s0.bail then (0, s0)
    else
      let s1 := loadDbghelp W (loadMgwhelp W s0)
      if s1.hModule = 0 then (0, { s1 with bail := true })
      else returnGetProcAddress W lpProcName s1
  else returnGetProcAddress W lpProcName s0

/-! ## The dispatch shims (lines 112-149) -/

/-- Generic macro to dispatch a DbgHelp function: `target pfn` is the call
`pfn _arg_names` through the resolved pointer. -/
def DBGHELP_DISPATCH {σ α : Type} (W : World σ) (name : Proc) (ret_default : α)
    (target : Nat → σ → α × σ) (s : State σ) : α × State σ :=
  if s.pfn name = 0 then
    let r := getDbgHelpProcAddress W name s
    let s1 : State σ := { r.2 with pfn := Function.update r.2.pfn name r.1 }
    if s1.pfn name = 0 then (ret_default, s1)
    else (s1.emit (.call name)).ext (target (s1.pfn name))
  else (s.emit (.call name)).ext (target (s.pfn name))

/-- Shim `j_SymInitialize`, default `0`. -/
def j_SymInitialize {σ : Type} (W : World σ) (s : State σ) : Bool × State σ :=
  DBGHELP_DISPATCH W .SymInitialize false W.SymInitialize s

/-- Shim `j_SymSetOptions`, default `false`. -/
def j_SymSetOptions {σ : Type} (W : World σ) (SymOptions : Nat) (s : State σ) :
    Nat × State σ :=
  DBGHELP_DISPATCH W .SymSetOptions 0 (fun pfn => W.SymSetOptions pfn SymOptions) s

/-- Shim `j_SymFromAddr`, default `false`; the second component is `pSymbol->Name`,
zeroed by the caller's `memset` when the provider is not reached. -/
def j_SymFromAddr {σ : Type} (W : World σ) (Address : Nat) (s : State σ) :
    (Bool × List Char) × State σ :=
  DBGHELP_DISPATCH W .SymFromAddr (false, []) (fun pfn => W.SymFromAddr pfn Address) s

/-- Shim `j_SymGetLineFromAddr64`, default `false`; `Line` stays zeroed when the
provider is not reached. -/
def j_SymGetLineFromAddr64 {σ : Type} (W : World σ) (dwAddr : Nat) (s : State σ) :
    (Bool × Option (List Char) × Nat) × State σ :=
  DBGHELP_DISPATCH W .SymGetLineFromAddr64 (false, none, 0)
    (fun pfn => W.SymGetLineFromAddr64 pfn dwAddr) s

/-- Shim `j_SymCleanup`, default `false`. -/
def j_SymCleanup {σ : Type} (W : World σ) (s : State σ) : Bool × State σ :=
  DBGHELP_DISPATCH W .SymCleanup false W.SymCleanup s

/-! ## `debug_symbol_name_dbghelp` (lines 155-235) -/

/-- Lines 176-189: the session start, attempted while `g_bSymInitialized` is
false. -/
def initSession {σ : Type} (W : World σ) (s : State σ) : State σ :=
  if s.g_bSymInitialized = false then
    let o := (s.emit .getOption).ext W.debug_get_bool_option
    let s1 := if o.1 = true then (j_SymCleanup W o.2).2 else o.2
    let s2 := (j_SymSetOptions W SYMOPT_LOAD_LINES s1).2
    let i := j_SymInitialize W s2
    if i.1 = true then { i.2 with g_bSymInitialized := true } else i.2
  else s

/-- Text of `"%p at %s+0x%lx"` for `addr`, the bytes of `buffer` and `hModule`:
the offset is `(unsigned long)((uintptr_t)addr - (uintptr_t)hModule)`. -/
def moduleText {σ : Type} (W : World σ) (addr : Nat) (buffer : List Char) (hModule : Nat) :
    List Char :=
  let P := 2 ^ W.ptrBits
  let diff := (addr % P + P - hModule % P) % P
  W.fmt_p addr ++ " at ".toList ++ cstr buffer ++ "+0x".toList
    ++ fmt_lx (diff % 2 ^ ULONG_BITS)

/-- Lines 194-214: the symbol could not be obtained; tell at least which module
the address belongs to. The result is the `bool` returned and the stores into
`buf`. -/
def moduleFallback {σ : Type} (W : World σ) (addr size : Nat) (s : State σ) :
    (Bool × List Write) × State σ :=
  let h := (s.emit (.moduleHandle addr)).ext (W.GetModuleHandleEx addr)
  if h.1.1 = false then ((false, []), h.2)
  else
    let f := (h.2.emit (.moduleFileName h.1.2)).ext (W.GetModuleFileNameA h.1.2)
    if f.1.1 = SIZEOF_BUFFER then ((false, []), f.2)
    else
      let text := moduleText W addr f.1.2 h.1.2
      ((true, snprintf size text), f.2.emit (.snprintf size text))

/-- Text of `"%s at %s:%lu"`. -/
def symbolLineText (Name FileName : List Char) (LineNumber : Nat) : List Char :=
  cstr Name ++ " at ".toList ++ cstr FileName ++ ":".toList
    ++ fmt_lu (LineNumber % 2 ^ ULONG_BITS)

/-- Lines 216-231: the symbol is known; try to get filename and line number. -/
def symbolFormat {σ : Type} (W : World σ) (dwAddr size : Nat) (Name : List Char)
    (s : State σ) : (Bool × List Write) × State σ :=
  let l := j_SymGetLineFromAddr64 W dwAddr s
  let FileName := if l.1.1 = false then none else l.1.2.1
  let text :=
    match FileName with
    | some f => symbolLineText Name f l.1.2.2
    | none => cstr Name
  ((true, snprintf size text), l.2.emit (.snprintf size text))

/-- The function `debug_symbol_name_dbghelp(addr, buf, size)`: the `bool`
returned and the stores into `buf`. -/
def debug_symbol_name_dbghelp {σ : Type} (W : World σ) (addr size : Nat) (s : State σ) :
    (Bool × List Write) × State σ :=
  let dwAddr := addr % 2 ^ W.ptrBits % 2 ^ 64
  let s1 := initSession W s
  if s1.g_bSymInitialized = false then moduleFallback W addr size s1
  else
    let r := j_SymFromAddr W dwAddr s1
    if r.1.1 = false then moduleFallback W addr size r.2
    else symbolFormat W dwAddr size r.1.2 r.2

/-! ## `debug_symbol_name` (lines 239-250) -/

/-- Index `size - 1` of `buf[size - 1] = 0`, in the arithmetic of `unsigned`. -/
def terminatorIndex (size : Nat) : Nat := (size + 2 ^ 32 - 1) % 2 ^ 32

/-- The function `debug_symbol_name(addr, buf, size)`: the stores into `buf`. -/
def debug_symbol_name {σ : Type} (W : World σ) (addr size : Nat) (s : State σ) :
    List Write × State σ :=
  let r := debug_symbol_name_dbghelp W addr size (s.emit (.resolve addr))
  if r.1.1 = true then (r.1.2, r.2)
  else
    let text := W.fmt_p addr
    (r.1.2 ++ snprintf size text ++ [(terminatorIndex size, NUL)],
      r.2.emit (.snprintf size text))

/-! ## `debug_symbol_name_cached` (lines 260-280) -/

/-- The table behind `symbols_hash`, once created. -/
def State.table {σ : Type} (s : State σ) : hash_table :=
  s.symbols_hash.getD _mesa_pointer_hash_table_create

/-- Lines 268-269: the table is created on first use. -/
def ensureTable {σ : Type} (s : State σ) : State σ :=
  if s.symbols_hash.isNone then
    { s with symbols_hash := some _mesa_pointer_hash_table_create }
  else s

/-- Lines 270-279: search the table; on a miss resolve the name into
`char buf[1024]`, `strdup` it and insert the entry. The result is `entry->data`. -/
def searchOrInsert {σ : Type} (W : World σ) (addr : Nat) (s : State σ) : Nat × State σ :=
  match _mesa_hash_table_search s.table addr with
  | some entry => (entry.2, s)
  | none =>
    let garbage := W.stack s.world
    let r := debug_symbol_name W addr 1024 s
    let buf := store garbage r.1
    let name := r.2.heap.length
    let s1 : State σ := { r.2 with heap := r.2.heap ++ [bufString buf 1024] }
    let ins := _mesa_hash_table_insert s1.table addr name
    (ins.2.2, { s1 with symbols_hash := some ins.1 })

/-- The function `debug_symbol_name_cached(addr)`, the section between
`simple_mtx_lock` and `simple_mtx_unlock` being one step: the pointer returned
(`entry->data`). -/
def debug_symbol_name_cached {σ : Type} (W : World σ) (addr : Nat) (s : State σ) :
    Nat × State σ :=
  searchOrInsert W addr (ensureTable s)

/-- The string stored at a pointer returned by `debug_symbol_name_cached`. -/
def State.deref {σ : Type} (s : State σ) (p : Nat) : Option (List Char) :=
  s.heap[p]?

/-- Every stored entry points to a block of the heap. -/
def State.WF {σ : Type} (s : State σ) : Prop :=
  ∀ e ∈ s.table, e.2 < s.heap.length

/-- A sequence of calls of `debug_symbol_name_cached`, one per address, in
order: the pointers returned and the final state. -/
def cachedRun {σ : Type} (W : World σ) : List Nat → State σ → List Nat × State σ
  | [], s => ([], s)
  | a :: as, s =>
    let r := debug_symbol_name_cached W a s
    let rest := cachedRun W as r.2
    (r.1 :: rest.1, rest.2)

/-- A sequence of calls of `debug_symbol_name`, each with address and capacity:
the final state. -/
def nameRun {σ : Type} (W : World σ) : List (Nat × Nat) → State σ → State σ
  | [], s => s
  | c :: cs, s => nameRun W cs (debug_symbol_name W c.1 c.2 s).2

/-- A sequence of `k` calls of the shim generated for `name`: the final state. -/
def dispatchRun {σ α : Type} (W : World σ) (name : Proc) (ret_default : α)
    (target : Nat → σ → α × σ) : Nat → State σ → State σ
  | 0, s => s
  | k + 1, s => dispatchRun W name ret_default target k
      (DBGHELP_DISPATCH W name ret_default target s).2

/-- The four shapes of a resolved symbol for `addr`: raw pointer, module and
offset, symbol alone, symbol with file and line. -/
def IsResolvedText {σ : Type} (W : World σ) (addr : Nat) (T : List Char) : Prop :=
  T = W.fmt_p addr ∨ (∃ buffer hModule, T = moduleText W addr buffer hModule) ∨
    (∃ Name, T = cstr Name) ∨ ∃ Name FileName LineNumber, T = symbolLineText Name FileName LineNumber

/-- A step that leaves the cache and the heap alone and extends the trace by
events of class `P`. -/
structure Step {σ : Type} (P : Event → Bool) (s s' : State σ) : Prop where
  hash : s'.symbols_hash = s.symbols_hash
  heap : s'.heap = s.heap
  log : ∃ new, s'.log = s.log ++ new ∧ ∀ e ∈ new, P e = true

/-! ## Sample processes -/

/-- A sample symbol name of 40 characters. -/
def sampleName : List Char := "a_function_name_that_is_forty_chars_long".toList

/-- The file name of the sample module as `GetModuleFileNameA` leaves it in a
buffer of 512 bytes when it returns `fileLen`: the first `fileLen` characters
of a long path, at most 511 of them, and the terminator. -/
def samplePath (fileLen : Nat) : List Char :=
  ("C:\\mesa.dll".toList ++ List.replicate 600 'x').take (min fileLen 511) ++ [NUL]

/-- A sample process. `LoadLibraryA` answers `lib` for `dbghelp.dll` (`0`: no
provider) and every entry point is found exactly when `lib` is not `0`; `SymInitialize`
answers `initOk`; one module is loaded at `0x1000` with `modSize` bytes and its
file-name query returns `fileLen`; the provider knows a symbol at `0x2000`
(without line information) and one at `0x2004` (with). Pointers are 64 bits
wide and `%p` prints bare lowercase hexadecimal. -/
def sampleWorld (lib : Nat) (initOk : Bool) (modSize fileLen : Nat) : World Unit :=
  { DETECT_CC_GCC := true
    ptrBits := 64
    fmt_p := fun a => Nat.toDigits 16 a
    LoadLibraryA := fun dll w => (if dll = "dbghelp.dll" then lib else 0, w)
    GetProcAddress := fun h _ w => (if lib = 0 then 0 else h, w)
    SymInitialize := fun _ w => (initOk, w)
    SymSetOptions := fun _ _ w => (0, w)
    SymFromAddr := fun _ a w =>
      (if a = 0x2000 then (true, sampleName)
        else if a = 0x2004 then (true, "main".toList) else (false, []), w)
    SymGetLineFromAddr64 := fun _ a w =>
      (if a = 0x2004 then (true, some "u_debug_symbol.c".toList, 240)
        else (false, none, 0), w)
    SymCleanup := fun _ w => (true, w)
    debug_get_bool_option := fun w => (false, w)
    GetModuleHandleEx := fun a w =>
      (if 0x1000 ≤ a ∧ a < 0x1000 + modSize then (true, 0x1000) else (false, 0), w)
    GetModuleFileNameA := fun _ w => ((fileLen, samplePath fileLen), w)
    stack := fun _ _ => 'x' }

/-- No provider library; a module of `0x2000` bytes at `0x1000`. -/
def noProvider : World Unit := sampleWorld 0 false 0x2000 11

/-- No provider library; the module's file name fills the whole 512-byte buffer. -/
def noProviderLongPath : World Unit := sampleWorld 0 false 0x2000 512

/-- The provider loads but its session cannot be started. -/
def failingSession : World Unit := sampleWorld 0x7000 false 0x2000 11

/-- The provider loads and its session starts. -/
def workingProvider : World Unit := sampleWorld 0x7000 true 0x2000 11

/-- Sample content of a destination buffer before the call. -/
def sampleMem : Mem := fun _ => 'x'

/-! ## Characters and buffers: lemmas -/

theorem ite_ne_of_ne {α : Type} (c : Prop) [Decidable c] (a b x : α) (ha : a ≠ x)
    (hb : b ≠ x) : (if c then a else b) ≠ x := by
  split <;> assumption

theorem digitChar_ne_NUL (d : Nat) : Nat.digitChar d ≠ NUL := by
  unfold Nat.digitChar
  repeat' apply ite_ne_of_ne
  all_goals decide

theorem toDigitsCore_noNUL (b : Nat) :
    ∀ (fuel n : Nat) (acc : List Char), (∀ c ∈ acc, c ≠ NUL) →
      ∀ c ∈ Nat.toDigitsCore b fuel n acc, c ≠ NUL := by
  intro fuel
  induction fuel with
  | zero => intro n acc h; simpa [Nat.toDigitsCore] using h
  | succ f ih =>
    intro n acc h
    have h2 : ∀ c ∈ Nat.digitChar (n % b) :: acc, c ≠ NUL := by
      intro c hc
      rcases List.mem_cons.1 hc with rfl | hc
      · exact digitChar_ne_NUL _
      · exact h c hc
    simp only [Nat.toDigitsCore]
    split
    · exact h2
    · exact ih _ _ h2

theorem toDigitsCore_ne_nil (b : Nat) :
    ∀ (fuel n : Nat) (acc : List Char), acc ≠ [] → Nat.toDigitsCore b fuel n acc ≠ [] := by
  intro fuel
  induction fuel with
  | zero => intro n acc h; simpa [Nat.toDigitsCore] using h
  | succ f ih =>
    intro n acc _
    simp only [Nat.toDigitsCore]
    split
    · simp
    · exact ih _ _ (by simp)

theorem toDigits_noNUL (b n : Nat) : ∀ c ∈ Nat.toDigits b n, c ≠ NUL :=
  toDigitsCore_noNUL b _ _ _ (by simp)

theorem toDigits_ne_nil (b n : Nat) : Nat.toDigits b n ≠ [] := by
  unfold Nat.toDigits
  simp only [Nat.toDigitsCore]
  split
  · simp
  · exact toDigitsCore_ne_nil _ _ _ _ (by simp)

theorem cstr_noNUL (l : List Char) : ∀ c ∈ cstr l, c ≠ NUL := by
  intro c hc
  have := List.mem_takeWhile_imp hc
  simpa using this

theorem cstr_of_noNUL (l : List Char) (h : ∀ c ∈ l, c ≠ NUL) : cstr l = l := by
  unfold cstr
  rw [List.takeWhile_eq_self_iff]
  intro c hc
  simpa using h c hc

theorem cstr_append_NUL (l r : List Char) (h : ∀ c ∈ l, c ≠ NUL) :
    cstr (l ++ NUL :: r) = l := by
  unfold cstr
  induction l with
  | nil => simp [List.takeWhile]
  | cons a t ih =>
    have ha : a ≠ NUL := h a (by simp)
    have ht : ∀ c ∈ t, c ≠ NUL := fun c hc => h c (by simp [hc])
    have hb : (a != NUL) = true := by simpa using ha
    have e := ih ht
    rw [List.cons_append, List.takeWhile_cons, hb]
    simp only [if_true]
    rw [e]


theorem store_nil (m : Mem) : store m [] = m := rfl

theorem store_cons (m : Mem) (w : Write) (ws : List Write) :
    store m (w :: ws) = store (Function.update m w.1 w.2) ws := rfl

theorem store_append (m : Mem) (ws1 ws2 : List Write) :
    store m (ws1 ++ ws2) = store (store m ws1) ws2 := by
  simp [store, List.foldl_append]

theorem store_writesFrom (cs : List Char) :
    ∀ (i : Nat) (m : Mem) (j : Nat),
      store m (writesFrom i cs) j =
        if i ≤ j ∧ j < i + cs.length then cs.getD (j - i) NUL else m j := by
  induction cs with
  | nil =>
    intro i m j
    have h : ¬ (i ≤ j ∧ j < i + ([] : List Char).length) := by
      simp only [List.length_nil]; omega
    rw [if_neg h]; rfl
  | cons c cs ih =>
    intro i m j
    rw [writesFrom, store_cons, ih]
    have hlen : (c :: cs).length = cs.length + 1 := rfl
    by_cases h1 : i + 1 ≤ j
    · obtain ⟨k, rfl⟩ : ∃ k, j = i + 1 + k := ⟨j - (i + 1), by omega⟩
      have e1 : i + 1 + k - (i + 1) = k := by omega
      have e2 : i + 1 + k - i = k + 1 := by omega
      by_cases h2 : k < cs.length
      · rw [if_pos ⟨h1, by omega⟩, if_pos ⟨by omega, by omega⟩, e1, e2]
        rfl
      · rw [if_neg (by omega), if_neg (by omega)]
        exact Function.update_noteq (by omega) _ _
    · by_cases h5 : j = i
      · subst h5
        rw [if_neg (by omega), if_pos ⟨by omega, by omega⟩, Nat.sub_self]
        simp
      · rw [if_neg (by omega), if_neg (by omega)]
        exact Function.update_noteq h5 _ _

theorem mem_writesFrom (cs : List Char) :
    ∀ (i : Nat) (w : Write), w ∈ writesFrom i cs → i ≤ w.1 ∧ w.1 < i + cs.length := by
  induction cs with
  | nil => intro i w h; simp [writesFrom] at h
  | cons c cs ih =>
    intro i w h
    rw [writesFrom] at h
    rcases List.mem_cons.1 h with rfl | h
    · simp
    · have := ih _ _ h
      simp only [List.length_cons]
      omega

theorem store_same (i : Nat) (c : Char) :
    ∀ (post : List Write) (m : Mem) (j : Nat), (∀ w ∈ post, w = (i, c)) →
      store m post j = if j = i ∧ post ≠ [] then c else m j := by
  intro post
  induction post with
  | nil => intro m j _; simp [store_nil]
  | cons w ws ih =>
    intro m j h
    have hw : w = (i, c) := h w (by simp)
    have hws : ∀ w ∈ ws, w = (i, c) := fun w hw => h w (by simp [hw])
    rw [store_cons, ih _ _ hws, hw]
    by_cases hj : j = i
    · subst hj; simp [Function.update]
    · simp [hj, Function.update]

theorem bufString_eq (m : Mem) (n : Nat) (l : List Char) (hl : l.length < n)
    (hN : ∀ c ∈ l, c ≠ NUL) (hm : ∀ j, j < l.length → m j = l.getD j NUL)
    (hz : m l.length = NUL) : bufString m n = l := by
  unfold bufString
  obtain ⟨d, rfl⟩ : ∃ d, n = l.length + (1 + d) := ⟨n - l.length - 1, by omega⟩
  rw [List.range_add, List.map_append, List.range_add, List.map_map, List.map_append]
  have e1 : List.map m (List.range l.length) = l := by
    apply List.ext_getElem
    · simp
    · intro j h1 h2
      simp only [List.getElem_map, List.getElem_range]
      rw [hm j h2]
      simp [List.getD_eq_getElem?_getD, h2]
  rw [e1]
  have e2 : List.map (m ∘ fun x => l.length + x) (List.range 1) = [NUL] := by
    simp [List.range_succ, hz]
  rw [e2]
  exact cstr_append_NUL _ _ hN

/-- Buffer discipline of `snprintf`, also when followed by stores of NUL at
index `n - 1`. -/
theorem snprintf_discipline (m : Mem) (n : Nat) (T : List Char) (post : List Write)
    (hn : 1 ≤ n) (hT : ∀ c ∈ T, c ≠ NUL) (hpost : ∀ w ∈ post, w = (n - 1, NUL)) :
    bufString (store m (snprintf n T ++ post)) n = T.take (min T.length (n - 1)) ∧
    store m (snprintf n T ++ post) (min T.length (n - 1)) = NUL ∧
    (∀ w ∈ snprintf n T ++ post, w.1 < n) := by
  have hn0 : n ≠ 0 := by omega
  have hk : min T.length (n - 1) ≤ n - 1 := Nat.min_le_right _ _
  have hlen : (T.take (min T.length (n - 1))).length = min T.length (n - 1) := by
    simp
  have key : ∀ j, store m (snprintf n T ++ post) j =
      if j = n - 1 ∧ post ≠ [] then NUL
      else if j < min T.length (n - 1) then (T.take (min T.length (n - 1))).getD j NUL
      else if j = min T.length (n - 1) then NUL else m j := by
    intro j
    rw [store_append, store_same (n - 1) NUL post _ j hpost]
    by_cases h1 : j = n - 1 ∧ post ≠ []
    · rw [if_pos h1, if_pos h1]
    · rw [if_neg h1, if_neg h1]
      simp only [snprintf, hn0, if_false]
      rw [store_append, store_cons, store_nil]
      by_cases h2 : j = min T.length (n - 1)
      · rw [if_neg (by omega), if_pos h2, h2]
        exact Function.update_same _ _ _
      · rw [Function.update_noteq h2, store_writesFrom, hlen, if_neg h2]
        by_cases h3 : j < min T.length (n - 1)
        · rw [if_pos ⟨by omega, by omega⟩, if_pos h3, Nat.sub_zero]
        · rw [if_neg (by omega), if_neg h3]
  have hz : store m (snprintf n T ++ post) (min T.length (n - 1)) = NUL := by
    rw [key]
    split
    · rfl
    · simp
  refine ⟨?_, hz, ?_⟩
  · apply bufString_eq
    · rw [hlen]; omega
    · intro c hc; exact hT c (List.mem_of_mem_take hc)
    · intro j hj
      rw [hlen] at hj
      rw [key]
      have h1 : ¬ (j = n - 1 ∧ post ≠ []) := by omega
      simp [h1, hj]
    · rw [hlen]; exact hz
  · intro w hw
    rcases List.mem_append.1 hw with hw | hw
    · simp only [snprintf, hn0, if_false] at hw
      rcases List.mem_append.1 hw with hw | hw
      · have := mem_writesFrom _ _ _ hw
        rw [hlen] at this
        omega
      · simp at hw; subst hw; simp; omega
    · rw [hpost w hw]; simp; omega


/-! ## Frame and trace lemmas -/

section Frame

variable {σ : Type}

@[simp] theorem emit_world (s : State σ) (e : Event) : (s.emit e).world = s.world := rfl
@[simp] theorem emit_g (s : State σ) (e : Event) :
    (s.emit e).g_bSymInitialized = s.g_bSymInitialized := rfl
@[simp] theorem emit_hModule (s : State σ) (e : Event) : (s.emit e).hModule = s.hModule := rfl
@[simp] theorem emit_bail (s : State σ) (e : Event) : (s.emit e).bail = s.bail := rfl
@[simp] theorem emit_pfn (s : State σ) (e : Event) : (s.emit e).pfn = s.pfn := rfl
@[simp] theorem emit_hash (s : State σ) (e : Event) :
    (s.emit e).symbols_hash = s.symbols_hash := rfl
@[simp] theorem emit_heap (s : State σ) (e : Event) : (s.emit e).heap = s.heap := rfl
@[simp] theorem emit_log (s : State σ) (e : Event) : (s.emit e).log = s.log ++ [e] := rfl

@[simp] theorem ext_fst {α : Type} (s : State σ) (f : σ → α × σ) :
    (s.ext f).1 = (f s.world).1 := rfl
@[simp] theorem ext_world {α : Type} (s : State σ) (f : σ → α × σ) :
    (s.ext f).2.world = (f s.world).2 := rfl
@[simp] theorem ext_g {α : Type} (s : State σ) (f : σ → α × σ) :
    (s.ext f).2.g_bSymInitialized = s.g_bSymInitialized := rfl
@[simp] theorem ext_hModule {α : Type} (s : State σ) (f : σ → α × σ) :
    (s.ext f).2.hModule = s.hModule := rfl
@[simp] theorem ext_bail {α : Type} (s : State σ) (f : σ → α × σ) :
    (s.ext f).2.bail = s.bail := rfl
@[simp] theorem ext_pfn {α : Type} (s : State σ) (f : σ → α × σ) :
    (s.ext f).2.pfn = s.pfn := rfl
@[simp] theorem ext_hash {α : Type} (s : State σ) (f : σ → α × σ) :
    (s.ext f).2.symbols_hash = s.symbols_hash := rfl
@[simp] theorem ext_heap {α : Type} (s : State σ) (f : σ → α × σ) :
    (s.ext f).2.heap = s.heap := rfl
@[simp] theorem ext_log {α : Type} (s : State σ) (f : σ → α × σ) :
    (s.ext f).2.log = s.log := rfl

theorem Step.refl (P : Event → Bool) (s : State σ) : Step P s s :=
  ⟨rfl, rfl, [], by simp, by simp⟩

theorem Step.trans {P : Event → Bool} {s s' s'' : State σ} (h1 : Step P s s')
    (h2 : Step P s' s'') : Step P s s'' := by
  obtain ⟨n1, e1, p1⟩ := h1.log
  obtain ⟨n2, e2, p2⟩ := h2.log
  refine ⟨h2.hash.trans h1.hash, h2.heap.trans h1.heap, n1 ++ n2, ?_, ?_⟩
  · rw [e2, e1, List.append_assoc]
  · intro e he
    rcases List.mem_append.1 he with he | he
    · exact p1 e he
    · exact p2 e he

theorem Step.mono {P Q : Event → Bool} {s s' : State σ} (h : Step P s s')
    (hPQ : ∀ e, P e = true → Q e = true) : Step Q s s' := by
  obtain ⟨n1, e1, p1⟩ := h.log
  exact ⟨h.hash, h.heap, n1, e1, fun e he => hPQ e (p1 e he)⟩

theorem Step.emit (P : Event → Bool) (s : State σ) (e : Event) (h : P e = true) :
    Step P s (s.emit e) :=
  ⟨rfl, rfl, [e], rfl, by simpa using h⟩

theorem Step.ext {α : Type} (P : Event → Bool) (s : State σ) (f : σ → α × σ) :
    Step P s (s.ext f).2 :=
  ⟨rfl, rfl, [], by simp, by simp⟩

theorem loadMgwhelp_step (W : World σ) (p : Proc) (s : State σ) :
    Step (Event.ofLoad p) s (loadMgwhelp W s) ∧ (loadMgwhelp W s).pfn = s.pfn := by
  unfold loadMgwhelp
  split
  · split
    · dsimp only
      split
      · exact ⟨⟨rfl, rfl, [.loadLibrary "mgwhelp.dll", .warning], by simp, by simp [Event.ofLoad]⟩, rfl⟩
      · exact ⟨⟨rfl, rfl, [.loadLibrary "mgwhelp.dll"], by simp, by simp [Event.ofLoad]⟩, rfl⟩
    · exact ⟨Step.refl _ _, rfl⟩
  · exact ⟨Step.refl _ _, rfl⟩

theorem loadDbghelp_step (W : World σ) (p : Proc) (s : State σ) :
    Step (Event.ofLoad p) s (loadDbghelp W s) ∧ (loadDbghelp W s).pfn = s.pfn := by
  unfold loadDbghelp
  split
  · exact ⟨⟨rfl, rfl, [.loadLibrary "dbghelp.dll"], by simp, by simp [Event.ofLoad]⟩, rfl⟩
  · exact ⟨Step.refl _ _, rfl⟩

theorem returnGetProcAddress_step (W : World σ) (p : Proc) (s : State σ) :
    Step (Event.ofLoad p) s (returnGetProcAddress W p s).2 ∧
      (returnGetProcAddress W p s).2.pfn = s.pfn :=
  ⟨⟨rfl, rfl, [.getProc p], by simp [returnGetProcAddress], by simp [Event.ofLoad]⟩, rfl⟩

/-- The loader logs its own call first, then only library and entry-point
queries; it leaves the session flag, the shims' pointers and the cache alone. -/
theorem getDbgHelpProcAddress_step (W : World σ) (p : Proc) (s : State σ) :
    Step (Event.ofLoad p) (s.emit (.loader p)) (getDbgHelpProcAddress W p s).2 ∧
      (getDbgHelpProcAddress W p s).2.pfn = s.pfn := by
  have h1 := loadMgwhelp_step W p (s.emit (.loader p))
  have h2 := loadDbghelp_step W p (loadMgwhelp W (s.emit (.loader p)))
  have h12 := h1.1.trans h2.1
  have hp : (loadDbghelp W (loadMgwhelp W (s.emit (.loader p)))).pfn = s.pfn := by
    rw [h2.2, h1.2]; rfl
  unfold getDbgHelpProcAddress
  dsimp only
  split
  · split
    · exact ⟨Step.refl _ _, rfl⟩
    · split
      · refine ⟨?_, hp⟩
        exact ⟨h12.hash, h12.heap, h12.log⟩
      · have h3 := returnGetProcAddress_step W p (loadDbghelp W (loadMgwhelp W (s.emit (.loader p))))
        exact ⟨h12.trans h3.1, h3.2.trans hp⟩
  · have h3 := returnGetProcAddress_step W p (s.emit (.loader p))
    exact ⟨h3.1, h3.2⟩


theorem ofLoad_ofShim (p : Proc) (e : Event) (h : e.ofLoad p = true) : e.ofShim p = true := by
  cases e <;> simp_all [Event.ofLoad, Event.ofShim]

theorem count_eq_zero_of_class (P : Event → Bool) (new : List Event) (x : Event)
    (h : ∀ e ∈ new, P e = true) (hx : P x = false) : new.count x = 0 := by
  rw [List.count_eq_zero]
  intro hm
  have := h x hm
  rw [hx] at this
  exact Bool.noConfusion this

theorem filter_eq_nil_of_class (P Q : Event → Bool) (new : List Event)
    (h : ∀ e ∈ new, P e = true) (hPQ : ∀ e, P e = true → Q e = false) :
    new.filter Q = [] := by
  rw [List.filter_eq_nil_iff]
  intro e he
  simp [hPQ e (h e he)]

/-- A step of class `P` adds no event outside `P`. -/
theorem Step.count_eq {P : Event → Bool} {s s' : State σ} (h : Step P s s') (x : Event)
    (hx : P x = false) : s'.log.count x = s.log.count x := by
  obtain ⟨new, e, hn⟩ := h.log
  rw [e, List.count_append, count_eq_zero_of_class P new x hn hx, Nat.add_zero]

/-- A step of class `P` leaves every filter disjoint from `P` unchanged. -/
theorem Step.filter_eq {P : Event → Bool} {s s' : State σ} (h : Step P s s')
    (Q : Event → Bool) (hPQ : ∀ e, P e = true → Q e = false) :
    s'.log.filter Q = s.log.filter Q := by
  obtain ⟨new, e, hn⟩ := h.log
  rw [e, List.filter_append, filter_eq_nil_of_class P Q new hn hPQ, List.append_nil]

theorem getDbgHelpProcAddress_g (W : World σ) (p : Proc) (s : State σ) :
    (getDbgHelpProcAddress W p s).2.g_bSymInitialized = s.g_bSymInitialized := by
  unfold getDbgHelpProcAddress returnGetProcAddress loadDbghelp loadMgwhelp
  dsimp only
  split_ifs <;> rfl

/-- With a cached pointer the shim forwards the call and does nothing else. -/
theorem dispatch_resolved {α : Type} (W : World σ) (p : Proc) (d : α)
    (target : Nat → σ → α × σ) (s : State σ) (h : s.pfn p ≠ 0) :
    DBGHELP_DISPATCH W p d target s = (s.emit (.call p)).ext (target (s.pfn p)) := by
  unfold DBGHELP_DISPATCH
  rw [if_neg h]

/-- Without a cached pointer the shim asks the loader and stores the answer; a
NULL answer gives the default. -/
theorem dispatch_unresolved {α : Type} (W : World σ) (p : Proc) (d : α)
    (target : Nat → σ → α × σ) (s : State σ) (h : s.pfn p = 0) :
    (DBGHELP_DISPATCH W p d target s).2.pfn =
        Function.update s.pfn p (getDbgHelpProcAddress W p s).1 ∧
      ((getDbgHelpProcAddress W p s).1 = 0 →
        (DBGHELP_DISPATCH W p d target s).1 = d ∧
        (DBGHELP_DISPATCH W p d target s).2.log = (getDbgHelpProcAddress W p s).2.log ∧
        (DBGHELP_DISPATCH W p d target s).2.world = (getDbgHelpProcAddress W p s).2.world) ∧
      ((getDbgHelpProcAddress W p s).1 ≠ 0 →
        (DBGHELP_DISPATCH W p d target s).2.log =
          (getDbgHelpProcAddress W p s).2.log ++ [.call p]) := by
  have hp := (getDbgHelpProcAddress_step W p s).2
  unfold DBGHELP_DISPATCH
  rw [if_pos h]
  dsimp only
  rw [hp]
  by_cases h0 : (getDbgHelpProcAddress W p s).1 = 0
  · simp [h0]
  · simp [h0]

/-- Flag, cache and heap are left alone by a shim; its events are its own. -/
theorem dispatch_step {α : Type} (W : World σ) (p : Proc) (d : α)
    (target : Nat → σ → α × σ) (s : State σ) :
    Step (Event.ofShim p) s (DBGHELP_DISPATCH W p d target s).2 ∧
      (DBGHELP_DISPATCH W p d target s).2.g_bSymInitialized = s.g_bSymInitialized ∧
      ∀ q, q ≠ p → (DBGHELP_DISPATCH W p d target s).2.pfn q = s.pfn q := by
  have hl := getDbgHelpProcAddress_step W p s
  have hg := getDbgHelpProcAddress_g W p s
  have h1 : Step (Event.ofShim p) s (getDbgHelpProcAddress W p s).2 :=
    (Step.emit (Event.ofShim p) s (.loader p) (by simp [Event.ofShim])).trans
      (hl.1.mono (ofLoad_ofShim p))
  unfold DBGHELP_DISPATCH
  split
  · dsimp only
    split
    · refine ⟨⟨h1.hash, h1.heap, h1.log⟩, hg, ?_⟩
      intro q hq
      simp [hl.2, Function.update_noteq hq]
    · refine ⟨?_, hg, ?_⟩
      · obtain ⟨new, e, hn⟩ := h1.log
        refine ⟨h1.hash, h1.heap, new ++ [.call p], ?_, ?_⟩
        · simp [e]
        · intro x hx
          rcases List.mem_append.1 hx with hx | hx
          · exact hn x hx
          · simp at hx; subst hx; simp [Event.ofShim]
      · intro q hq
        simp [hl.2, Function.update_noteq hq]
  · refine ⟨⟨rfl, rfl, [.call p], by simp, by simp [Event.ofShim]⟩, rfl, fun q _ => rfl⟩


theorem loader_count (W : World σ) (p : Proc) (s : State σ) :
    (getDbgHelpProcAddress W p s).2.log.count (.loader p) = s.log.count (.loader p) + 1 := by
  have h := (getDbgHelpProcAddress_step W p s).1
  rw [h.count_eq (.loader p) (by simp [Event.ofLoad])]
  simp

theorem dispatch_loader_count_unresolved {α : Type} (W : World σ) (p : Proc) (d : α)
    (target : Nat → σ → α × σ) (s : State σ) (h : s.pfn p = 0) :
    (DBGHELP_DISPATCH W p d target s).2.log.count (.loader p) =
      s.log.count (.loader p) + 1 := by
  have hu := dispatch_unresolved W p d target s h
  by_cases h0 : (getDbgHelpProcAddress W p s).1 = 0
  · rw [(hu.2.1 h0).2.1, loader_count]
  · rw [hu.2.2 h0, List.count_append, loader_count]
    simp

theorem dispatchRun_resolved {α : Type} (W : World σ) (p : Proc) (d : α)
    (target : Nat → σ → α × σ) (k : Nat) :
    ∀ s : State σ, s.pfn p ≠ 0 →
      (dispatchRun W p d target k s).log.count (.loader p) = s.log.count (.loader p) ∧
      (dispatchRun W p d target k s).pfn p = s.pfn p := by
  induction k with
  | zero => intro s _; exact ⟨rfl, rfl⟩
  | succ k ih =>
    intro s h
    have e := dispatch_resolved W p d target s h
    have hp : (DBGHELP_DISPATCH W p d target s).2.pfn p = s.pfn p := by rw [e]; rfl
    have hl : (DBGHELP_DISPATCH W p d target s).2.log.count (.loader p) =
        s.log.count (.loader p) := by
      rw [e]; simp
    have := ih (DBGHELP_DISPATCH W p d target s).2 (by rw [hp]; exact h)
    rw [dispatchRun, this.1, this.2, hl, hp]
    exact ⟨rfl, rfl⟩

theorem dispatchRun_unresolved {α : Type} (W : World σ) (p : Proc) (d : α)
    (target : Nat → σ → α × σ) (hW : ∀ t, (getDbgHelpProcAddress W p t).1 = 0) (k : Nat) :
    ∀ s : State σ, s.pfn p = 0 →
      (dispatchRun W p d target k s).log.count (.loader p) = s.log.count (.loader p) + k := by
  induction k with
  | zero => intro s _; rfl
  | succ k ih =>
    intro s h
    have hu := dispatch_unresolved W p d target s h
    have hp : (DBGHELP_DISPATCH W p d target s).2.pfn p = 0 := by
      rw [hu.1, hW s]; simp
    rw [dispatchRun, ih _ hp, dispatch_loader_count_unresolved W p d target s h]
    omega


theorem ofShim_ofSession (p : Proc) (hp : p = .SymCleanup ∨ p = .SymSetOptions ∨ p = .SymInitialize)
    (e : Event) (h : e.ofShim p = true) : e.ofSession = true := by
  rcases hp with rfl | rfl | rfl <;> cases e <;> simp_all [Event.ofSession, Event.ofShim, Event.ofLoad]

theorem ofShim_ofLookup (p : Proc) (hp : p = .SymFromAddr ∨ p = .SymGetLineFromAddr64)
    (e : Event) (h : e.ofShim p = true) : e.ofLookup = true := by
  rcases hp with rfl | rfl <;> cases e <;> simp_all [Event.ofLookup, Event.ofShim, Event.ofLoad]

theorem Step.set_g {P : Event → Bool} {s s' : State σ} (h : Step P s s') (b : Bool) :
    Step P s { s' with g_bSymInitialized := b } :=
  ⟨h.hash, h.heap, h.log⟩

/-- The session start leaves cache and heap alone and logs only its own events. -/
theorem initSession_step (W : World σ) (s : State σ) :
    Step Event.ofSession s (initSession W s) := by
  have key : ∀ s1 : State σ, Step Event.ofSession s s1 →
      Step Event.ofSession s
        (if (j_SymInitialize W (j_SymSetOptions W SYMOPT_LOAD_LINES s1).2).1 = true then
          { (j_SymInitialize W (j_SymSetOptions W SYMOPT_LOAD_LINES s1).2).2 with
            g_bSymInitialized := true }
         else (j_SymInitialize W (j_SymSetOptions W SYMOPT_LOAD_LINES s1).2).2) := by
    intro s1 h1
    have h2 := h1.trans ((dispatch_step W .SymSetOptions 0
      (fun pfn => W.SymSetOptions pfn SYMOPT_LOAD_LINES) s1).1.mono
        (ofShim_ofSession _ (Or.inr (Or.inl rfl))))
    have h3 := h2.trans ((dispatch_step W .SymInitialize false W.SymInitialize
      (j_SymSetOptions W SYMOPT_LOAD_LINES s1).2).1.mono
        (ofShim_ofSession _ (Or.inr (Or.inr rfl))))
    by_cases hc : (j_SymInitialize W (j_SymSetOptions W SYMOPT_LOAD_LINES s1).2).1 = true
    · rw [if_pos hc]; exact h3.set_g true
    · rw [if_neg hc]; exact h3
  unfold initSession
  by_cases hg : s.g_bSymInitialized = false
  · rw [if_pos hg]
    dsimp only
    apply key
    have h0 : Step Event.ofSession s ((s.emit .getOption).ext W.debug_get_bool_option).2 :=
      ⟨rfl, rfl, [.getOption], by simp, by simp [Event.ofSession]⟩
    by_cases hc : ((s.emit .getOption).ext W.debug_get_bool_option).1 = true
    · rw [if_pos hc]
      exact h0.trans ((dispatch_step W .SymCleanup false W.SymCleanup _).1.mono
          (ofShim_ofSession _ (Or.inl rfl)))
    · rw [if_neg hc]; exact h0
  · rw [if_neg hg]; exact Step.refl _ _

/-- An initialized session is not started again. -/
theorem initSession_of_initialized (W : World σ) (s : State σ)
    (h : s.g_bSymInitialized = true) : initSession W s = s := by
  unfold initSession
  rw [if_neg (by simp [h])]

/-- The module fallback: what it returns, stores and logs. -/
theorem moduleFallback_spec (W : World σ) (addr n : Nat) (s : State σ) :
    Step Event.ofLookup s (moduleFallback W addr n s).2 ∧
    (moduleFallback W addr n s).2.g_bSymInitialized = s.g_bSymInitialized ∧
    (moduleFallback W addr n s).2.log.count (.moduleHandle addr) =
      s.log.count (.moduleHandle addr) + 1 ∧
    ((moduleFallback W addr n s).1 = (false, []) ∧
        (moduleFallback W addr n s).2.log.filter Event.isSnprintf =
          s.log.filter Event.isSnprintf ∨
      ∃ T, (moduleFallback W addr n s).1 = (true, snprintf n T) ∧
        (moduleFallback W addr n s).2.log.getLast? = some (.snprintf n T) ∧
        (moduleFallback W addr n s).2.log.filter Event.isSnprintf =
          s.log.filter Event.isSnprintf ++ [.snprintf n T] ∧
        ∃ buffer hModule, T = moduleText W addr buffer hModule) := by
  unfold moduleFallback
  dsimp only
  split
  · refine ⟨⟨rfl, rfl, [.moduleHandle addr], by simp, by simp [Event.ofLookup]⟩, rfl, by simp,
      Or.inl ⟨rfl, by simp [List.filter_append, Event.isSnprintf]⟩⟩
  · split
    · refine ⟨⟨rfl, rfl, [.moduleHandle addr,
          .moduleFileName (W.GetModuleHandleEx addr s.world).1.2], by simp,
        by simp [Event.ofLookup]⟩, rfl, by simp [List.count_append],
        Or.inl ⟨rfl, by simp [List.filter_append, Event.isSnprintf]⟩⟩
    · refine ⟨⟨rfl, rfl, [.moduleHandle addr,
          .moduleFileName (W.GetModuleHandleEx addr s.world).1.2,
          .snprintf n (moduleText W addr (W.GetModuleFileNameA
            (W.GetModuleHandleEx addr s.world).1.2 (W.GetModuleHandleEx addr s.world).2).1.2
            (W.GetModuleHandleEx addr s.world).1.2)], by simp,
        by simp [Event.ofLookup]⟩, rfl, by simp [List.count_append],
        Or.inr ⟨_, rfl, by simp, by simp [List.filter_append, Event.isSnprintf], _, _, rfl⟩⟩

/-- The symbol formatting: what it returns, stores and logs. -/
theorem symbolFormat_spec (W : World σ) (dwAddr n : Nat) (Name : List Char) (s : State σ) :
    Step Event.ofLookup s (symbolFormat W dwAddr n Name s).2 ∧
    (symbolFormat W dwAddr n Name s).2.g_bSymInitialized = s.g_bSymInitialized ∧
    ∃ T, (symbolFormat W dwAddr n Name s).1 = (true, snprintf n T) ∧
      (symbolFormat W dwAddr n Name s).2.log.getLast? = some (.snprintf n T) ∧
      (symbolFormat W dwAddr n Name s).2.log.filter Event.isSnprintf =
          s.log.filter Event.isSnprintf ++ [.snprintf n T] ∧
      (symbolFormat W dwAddr n Name s).2.log.filter Event.isModuleQuery =
          s.log.filter Event.isModuleQuery ∧
      T = (match (if (j_SymGetLineFromAddr64 W dwAddr s).1.1 = false then none
              else (j_SymGetLineFromAddr64 W dwAddr s).1.2.1) with
            | some f => symbolLineText Name f (j_SymGetLineFromAddr64 W dwAddr s).1.2.2
            | none => cstr Name) := by
  have hd := dispatch_step W .SymGetLineFromAddr64 (false, none, 0)
    (fun pfn => W.SymGetLineFromAddr64 pfn dwAddr) s
  have h1 : Step Event.ofLookup s (j_SymGetLineFromAddr64 W dwAddr s).2 :=
    hd.1.mono (ofShim_ofLookup _ (Or.inr rfl))
  have hs : Step (Event.ofShim .SymGetLineFromAddr64) s (j_SymGetLineFromAddr64 W dwAddr s).2 :=
    hd.1
  have hg : (j_SymGetLineFromAddr64 W dwAddr s).2.g_bSymInitialized = s.g_bSymInitialized :=
    hd.2.1
  unfold symbolFormat
  dsimp only
  refine ⟨h1.trans (Step.emit _ _ _ (by simp [Event.ofLookup])), hg, _, rfl, by simp, ?_, ?_,
    rfl⟩
  · rw [emit_log, List.filter_append, hs.filter_eq Event.isSnprintf]
    · simp [Event.isSnprintf]
    · intro e he; cases e <;> simp_all [Event.ofShim, Event.ofLoad, Event.isSnprintf]
  · rw [emit_log, List.filter_append, hs.filter_eq Event.isModuleQuery]
    · simp [Event.isModuleQuery]
    · intro e he; cases e <;> simp_all [Event.ofShim, Event.ofLoad, Event.isModuleQuery]


theorem ofSession_ofDbghelp (e : Event) (h : e.ofSession = true) : e.ofDbghelp = true := by
  simp [Event.ofDbghelp, h]

theorem ofLookup_ofDbghelp (e : Event) (h : e.ofLookup = true) : e.ofDbghelp = true := by
  simp [Event.ofDbghelp, h]

theorem ofSession_not_isSnprintf (e : Event) (h : e.ofSession = true) :
    e.isSnprintf = false := by
  cases e <;> simp_all [Event.ofSession, Event.ofShim, Event.ofLoad, Event.isSnprintf]

theorem ofShim_not_isSnprintf (p : Proc) (e : Event) (h : e.ofShim p = true) :
    e.isSnprintf = false := by
  cases e <;> simp_all [Event.ofShim, Event.ofLoad, Event.isSnprintf]

theorem ofShim_not_isModuleQuery (p : Proc) (e : Event) (h : e.ofShim p = true) :
    e.isModuleQuery = false := by
  cases e <;> simp_all [Event.ofShim, Event.ofLoad, Event.isModuleQuery]

theorem ofSession_not_isModuleQuery (e : Event) (h : e.ofSession = true) :
    e.isModuleQuery = false := by
  cases e <;> simp_all [Event.ofSession, Event.ofShim, Event.ofLoad, Event.isModuleQuery]

theorem ofDbghelp_not_resolve (e : Event) (h : e.ofDbghelp = true) (a : Nat) :
    e ≠ .resolve a := by
  rintro rfl
  simp [Event.ofDbghelp, Event.ofSession, Event.ofLookup, Event.ofShim, Event.ofLoad] at h

theorem moduleText_ne_nil (W : World σ) (addr : Nat) (buffer : List Char) (hModule : Nat) :
    moduleText W addr buffer hModule ≠ [] := by
  unfold moduleText
  intro h
  have := congrArg List.length h
  simp at this

theorem symbolLineText_ne_nil (Name FileName : List Char) (LineNumber : Nat) :
    symbolLineText Name FileName LineNumber ≠ [] := by
  unfold symbolLineText
  intro h
  have := congrArg List.length h
  simp at this

/-- What `debug_symbol_name_dbghelp` returns, stores and logs. -/
theorem debug_symbol_name_dbghelp_spec (W : World σ) (addr n : Nat) (s : State σ) :
    Step Event.ofDbghelp s (debug_symbol_name_dbghelp W addr n s).2 ∧
    ((debug_symbol_name_dbghelp W addr n s).1 = (false, []) ∧
        (debug_symbol_name_dbghelp W addr n s).2.log.filter Event.isSnprintf =
          s.log.filter Event.isSnprintf ∨
      ∃ T, (debug_symbol_name_dbghelp W addr n s).1 = (true, snprintf n T) ∧
        (debug_symbol_name_dbghelp W addr n s).2.log.getLast? = some (.snprintf n T) ∧
        (debug_symbol_name_dbghelp W addr n s).2.log.filter Event.isSnprintf =
          s.log.filter Event.isSnprintf ++ [.snprintf n T] ∧
        ((∃ buffer hModule, T = moduleText W addr buffer hModule) ∨
          ((initSession W s).g_bSymInitialized = true ∧
            (j_SymFromAddr W (addr % 2 ^ W.ptrBits % 2 ^ 64) (initSession W s)).1.1 = true ∧
            (T = cstr (j_SymFromAddr W (addr % 2 ^ W.ptrBits % 2 ^ 64)
                (initSession W s)).1.2 ∨
              ∃ FileName LineNumber, T = symbolLineText
                (j_SymFromAddr W (addr % 2 ^ W.ptrBits % 2 ^ 64) (initSession W s)).1.2
                FileName LineNumber)))) := by
  have h1 : Step Event.ofDbghelp s (initSession W s) :=
    (initSession_step W s).mono ofSession_ofDbghelp
  have f1 : (initSession W s).log.filter Event.isSnprintf = s.log.filter Event.isSnprintf :=
    (initSession_step W s).filter_eq _ ofSession_not_isSnprintf
  have hd := dispatch_step W .SymFromAddr (false, [])
    (fun pfn => W.SymFromAddr pfn (addr % 2 ^ W.ptrBits % 2 ^ 64)) (initSession W s)
  have h2 : Step Event.ofDbghelp s
      (j_SymFromAddr W (addr % 2 ^ W.ptrBits % 2 ^ 64) (initSession W s)).2 :=
    h1.trans (hd.1.mono (fun e he => ofLookup_ofDbghelp e (ofShim_ofLookup _ (Or.inl rfl) e he)))
  have f2 : (j_SymFromAddr W (addr % 2 ^ W.ptrBits % 2 ^ 64) (initSession W s)).2.log.filter
      Event.isSnprintf = s.log.filter Event.isSnprintf := by
    rw [← f1]; exact hd.1.filter_eq _ (ofShim_not_isSnprintf _)
  have modCase : ∀ t : State σ, Step Event.ofDbghelp s t →
      t.log.filter Event.isSnprintf = s.log.filter Event.isSnprintf →
      Step Event.ofDbghelp s (moduleFallback W addr n t).2 ∧
      ((moduleFallback W addr n t).1 = (false, []) ∧
        (moduleFallback W addr n t).2.log.filter Event.isSnprintf =
          s.log.filter Event.isSnprintf ∨
      ∃ T, (moduleFallback W addr n t).1 = (true, snprintf n T) ∧
        (moduleFallback W addr n t).2.log.getLast? = some (.snprintf n T) ∧
        (moduleFallback W addr n t).2.log.filter Event.isSnprintf =
          s.log.filter Event.isSnprintf ++ [.snprintf n T] ∧
        ((∃ buffer hModule, T = moduleText W addr buffer hModule) ∨
          ((initSession W s).g_bSymInitialized = true ∧
            (j_SymFromAddr W (addr % 2 ^ W.ptrBits % 2 ^ 64) (initSession W s)).1.1 = true ∧
            (T = cstr (j_SymFromAddr W (addr % 2 ^ W.ptrBits % 2 ^ 64)
                (initSession W s)).1.2 ∨
              ∃ FileName LineNumber, T = symbolLineText
                (j_SymFromAddr W (addr % 2 ^ W.ptrBits % 2 ^ 64) (initSession W s)).1.2
                FileName LineNumber)))) := by
    intro t ht ft
    obtain ⟨m1, -, -, m4⟩ := moduleFallback_spec W addr n t
    refine ⟨ht.trans (m1.mono ofLookup_ofDbghelp), ?_⟩
    rcases m4 with ⟨e1, e2⟩ | ⟨T, e1, e2, e3, e4⟩
    · exact Or.inl ⟨e1, e2.trans ft⟩
    · exact Or.inr ⟨T, e1, e2, by rw [e3, ft], Or.inl e4⟩
  unfold debug_symbol_name_dbghelp
  dsimp only
  by_cases hg : (initSession W s).g_bSymInitialized = false
  · rw [if_pos hg]
    exact modCase _ h1 f1
  · rw [if_neg hg]
    by_cases hr : (j_SymFromAddr W (addr % 2 ^ W.ptrBits % 2 ^ 64) (initSession W s)).1.1 = false
    · rw [if_pos hr]
      exact modCase _ h2 f2
    · rw [if_neg hr]
      obtain ⟨q1, -, T, q3, q4, q5, -, q7⟩ := symbolFormat_spec W (addr % 2 ^ W.ptrBits % 2 ^ 64) n
        (j_SymFromAddr W (addr % 2 ^ W.ptrBits % 2 ^ 64) (initSession W s)).1.2
        (j_SymFromAddr W (addr % 2 ^ W.ptrBits % 2 ^ 64) (initSession W s)).2
      refine ⟨h2.trans (q1.mono ofLookup_ofDbghelp), Or.inr ⟨T, q3, q4, by rw [q5, f2],
        Or.inr ⟨by simpa using hg, by simpa using hr, ?_⟩⟩⟩
      rw [q7]
      split
      · exact Or.inr ⟨_, _, rfl⟩
      · exact Or.inl rfl

/-- What `debug_symbol_name` stores and logs: one `snprintf` of a resolved text,
followed on the raw path by the store of the terminator at `size - 1`. -/
theorem debug_symbol_name_spec (W : World σ) (addr n : Nat) (s : State σ) :
    Step Event.ofDbghelp (s.emit (.resolve addr)) (debug_symbol_name W addr n s).2 ∧
    ∃ T post, (debug_symbol_name W addr n s).1 = snprintf n T ++ post ∧
      (post = [] ∨ post = [(terminatorIndex n, NUL)]) ∧
      (debug_symbol_name W addr n s).2.log.getLast? = some (.snprintf n T) ∧
      (debug_symbol_name W addr n s).2.log.filter Event.isSnprintf =
          s.log.filter Event.isSnprintf ++ [.snprintf n T] ∧
      IsResolvedText W addr T ∧
      (T = [] → W.fmt_p addr ≠ [] →
        (initSession W (s.emit (.resolve addr))).g_bSymInitialized = true ∧
        (j_SymFromAddr W (addr % 2 ^ W.ptrBits % 2 ^ 64)
          (initSession W (s.emit (.resolve addr)))).1.1 = true ∧
        cstr (j_SymFromAddr W (addr % 2 ^ W.ptrBits % 2 ^ 64)
          (initSession W (s.emit (.resolve addr)))).1.2 = []) := by
  obtain ⟨h1, h2⟩ := debug_symbol_name_dbghelp_spec W addr n (s.emit (.resolve addr))
  have f0 : (s.emit (.resolve addr)).log.filter Event.isSnprintf =
      s.log.filter Event.isSnprintf := by
    simp [List.filter_append, Event.isSnprintf]
  unfold debug_symbol_name
  dsimp only
  rcases h2 with ⟨e1, e2⟩ | ⟨T, e1, e2, e3, e4⟩
  · rw [e1]
    simp only [Bool.false_eq_true, if_false, List.nil_append]
    refine ⟨h1.trans (Step.emit _ _ _ (by simp [Event.ofDbghelp, Event.ofLookup])),
      W.fmt_p addr, _, rfl, Or.inr rfl, by simp, ?_, Or.inl rfl,
      fun h0 hp => absurd h0 hp⟩
    rw [emit_log, List.filter_append, e2, f0]
    simp [Event.isSnprintf]
  · rw [e1]
    simp only [if_true]
    refine ⟨h1, T, [], by simp, Or.inl rfl, e2, by rw [e3, f0], ?_, ?_⟩
    · rcases e4 with ⟨b, h, rfl⟩ | ⟨-, -, rfl | ⟨F, L, rfl⟩⟩
      · exact Or.inr (Or.inl ⟨b, h, rfl⟩)
      · exact Or.inr (Or.inr (Or.inl ⟨_, rfl⟩))
      · exact Or.inr (Or.inr (Or.inr ⟨_, F, L, rfl⟩))
    · intro h0 _
      rcases e4 with ⟨b, h, rfl⟩ | ⟨g, r, rfl | ⟨F, L, rfl⟩⟩
      · exact absurd h0 (moduleText_ne_nil W addr b h)
      · exact ⟨g, r, h0⟩
      · exact absurd h0 (symbolLineText_ne_nil _ F L)


theorem terminatorIndex_pos (n : Nat) (hn : 1 ≤ n) (hn32 : n < 2 ^ 32) :
    terminatorIndex n = n - 1 := by
  unfold terminatorIndex
  norm_num at hn32 ⊢
  omega

theorem moduleText_noNUL (W : World σ) (addr : Nat) (buffer : List Char) (hModule : Nat)
    (hp : ∀ c ∈ W.fmt_p addr, c ≠ NUL) : ∀ c ∈ moduleText W addr buffer hModule, c ≠ NUL := by
  intro c hc
  unfold moduleText at hc
  simp only [List.mem_append] at hc
  rcases hc with (((hc | hc) | hc) | hc) | hc
  · exact hp c hc
  · revert c; decide
  · exact cstr_noNUL _ c hc
  · revert c; decide
  · exact toDigits_noNUL _ _ c hc

theorem symbolLineText_noNUL (Name FileName : List Char) (LineNumber : Nat) :
    ∀ c ∈ symbolLineText Name FileName LineNumber, c ≠ NUL := by
  intro c hc
  unfold symbolLineText at hc
  simp only [List.mem_append] at hc
  rcases hc with (((hc | hc) | hc) | hc) | hc
  · exact cstr_noNUL _ c hc
  · revert c; decide
  · exact cstr_noNUL _ c hc
  · revert c; decide
  · exact toDigits_noNUL _ _ c hc

/-- A resolved text holds no NUL, the `%p` conversion holding none. -/
theorem resolvedText_noNUL (W : World σ) (addr : Nat) (T : List Char)
    (hp : ∀ c ∈ W.fmt_p addr, c ≠ NUL) (h : IsResolvedText W addr T) :
    ∀ c ∈ T, c ≠ NUL := by
  rcases h with rfl | ⟨b, h, rfl⟩ | ⟨N, rfl⟩ | ⟨N, F, L, rfl⟩
  · exact hp
  · exact moduleText_noNUL W addr b h hp
  · exact cstr_noNUL N
  · exact symbolLineText_noNUL N F L


/-- With the loader answering NULL, a shim without pointer returns its default
and changes neither the pointers nor the session flag. -/
theorem dispatch_unavailable {α : Type} (W : World σ) (p : Proc) (d : α)
    (target : Nat → σ → α × σ) (s : State σ)
    (hload : ∀ t, (getDbgHelpProcAddress W p t).1 = 0) (hpfn : ∀ q, s.pfn q = 0) :
    (DBGHELP_DISPATCH W p d target s).1 = d ∧
    (∀ q, (DBGHELP_DISPATCH W p d target s).2.pfn q = 0) ∧
    (DBGHELP_DISPATCH W p d target s).2.g_bSymInitialized = s.g_bSymInitialized := by
  have hu := dispatch_unresolved W p d target s (hpfn p)
  refine ⟨(hu.2.1 (hload s)).1, ?_, (dispatch_step W p d target s).2.1⟩
  intro q
  rw [hu.1, hload s]
  by_cases hq : q = p
  · subst hq; simp
  · rw [Function.update_noteq hq]; exact hpfn q

/-- With the loader answering NULL the session start fails and caches nothing. -/
theorem initSession_unavailable (W : World σ) (s : State σ)
    (hload : ∀ p t, (getDbgHelpProcAddress W p t).1 = 0) (hpfn : ∀ q, s.pfn q = 0)
    (hinit : s.g_bSymInitialized = false) :
    (initSession W s).g_bSymInitialized = false ∧ ∀ q, (initSession W s).pfn q = 0 := by
  have key : ∀ s1 : State σ, (∀ q, s1.pfn q = 0) → s1.g_bSymInitialized = false →
      (if (j_SymInitialize W (j_SymSetOptions W SYMOPT_LOAD_LINES s1).2).1 = true then
          { (j_SymInitialize W (j_SymSetOptions W SYMOPT_LOAD_LINES s1).2).2 with
            g_bSymInitialized := true }
         else (j_SymInitialize W (j_SymSetOptions W SYMOPT_LOAD_LINES s1).2).2).g_bSymInitialized
        = false ∧
      ∀ q, (if (j_SymInitialize W (j_SymSetOptions W SYMOPT_LOAD_LINES s1).2).1 = true then
          { (j_SymInitialize W (j_SymSetOptions W SYMOPT_LOAD_LINES s1).2).2 with
            g_bSymInitialized := true }
         else (j_SymInitialize W (j_SymSetOptions W SYMOPT_LOAD_LINES s1).2).2).pfn q = 0 := by
    intro s1 h1 g1
    obtain ⟨-, a2, a3⟩ := dispatch_unavailable W .SymSetOptions 0
      (fun pfn => W.SymSetOptions pfn SYMOPT_LOAD_LINES) s1 (hload _) h1
    obtain ⟨b1, b2, b3⟩ := dispatch_unavailable W .SymInitialize false W.SymInitialize
      (j_SymSetOptions W SYMOPT_LOAD_LINES s1).2 (hload _) a2
    have hc : ¬ (j_SymInitialize W (j_SymSetOptions W SYMOPT_LOAD_LINES s1).2).1 = true := by
      rw [show (j_SymInitialize W (j_SymSetOptions W SYMOPT_LOAD_LINES s1).2).1 = false from b1]
      simp
    rw [if_neg hc]
    exact ⟨by rw [show (j_SymInitialize W (j_SymSetOptions W SYMOPT_LOAD_LINES s1).2).2.g_bSymInitialized = _ from b3,
      show (j_SymSetOptions W SYMOPT_LOAD_LINES s1).2.g_bSymInitialized = _ from a3, g1], b2⟩
  unfold initSession
  rw [if_pos hinit]
  dsimp only
  apply key
  · by_cases hc : ((s.emit .getOption).ext W.debug_get_bool_option).1 = true
    · rw [if_pos hc]
      exact (dispatch_unavailable W .SymCleanup false W.SymCleanup
        ((s.emit .getOption).ext W.debug_get_bool_option).2 (hload _) hpfn).2.1
    · rw [if_neg hc]; exact hpfn
  · by_cases hc : ((s.emit .getOption).ext W.debug_get_bool_option).1 = true
    · rw [if_pos hc]
      exact ((dispatch_unavailable W .SymCleanup false W.SymCleanup
        ((s.emit .getOption).ext W.debug_get_bool_option).2 (hload _) hpfn).2.2).trans hinit
    · rw [if_neg hc]; exact hinit

/-- On the sample processes without provider library the loader never finds an
entry point. -/
theorem sampleWorld_loader_null (initOk : Bool) (modSize fileLen : Nat) (p : Proc)
    (t : State Unit) :
    (getDbgHelpProcAddress (sampleWorld 0 initOk modSize fileLen) p t).1 = 0 := by
  unfold getDbgHelpProcAddress returnGetProcAddress loadDbghelp loadMgwhelp
  dsimp only
  split_ifs <;> simp [sampleWorld]


/-- Without truncation the buffer holds the whole text. -/
theorem snprintf_whole (m : Mem) (n : Nat) (T : List Char) (hT : ∀ c ∈ T, c ≠ NUL)
    (hlen : T.length < n) : bufString (store m (snprintf n T)) n = T := by
  have h := (snprintf_discipline m n T [] (by omega) hT (by simp)).1
  rw [List.append_nil] at h
  rw [h]
  have : min T.length (n - 1) = T.length := by omega
  rw [this, List.take_length]

theorem symbolLineText_of_noNUL (N F : List Char) (L : Nat) (hN : ∀ c ∈ N, c ≠ NUL)
    (hF : ∀ c ∈ F, c ≠ NUL) (hL : L < 2 ^ 32) :
    symbolLineText N F L = N ++ " at ".toList ++ F ++ ":".toList ++ Nat.toDigits 10 L := by
  unfold symbolLineText fmt_lu ULONG_BITS
  rw [cstr_of_noNUL N hN, cstr_of_noNUL F hF, Nat.mod_eq_of_lt hL]


/-- The lookup proper, after the session start: its events, the session flag
and the module query made when the session is not initialized. -/
theorem debug_symbol_name_dbghelp_lookup (W : World σ) (addr n : Nat) (s : State σ) :
    Step Event.ofLookup (initSession W s) (debug_symbol_name_dbghelp W addr n s).2 ∧
    (debug_symbol_name_dbghelp W addr n s).2.g_bSymInitialized =
      (initSession W s).g_bSymInitialized ∧
    ((initSession W s).g_bSymInitialized = false →
      (debug_symbol_name_dbghelp W addr n s).2.log.count (.moduleHandle addr) =
        (initSession W s).log.count (.moduleHandle addr) + 1) := by
  have hd := dispatch_step W .SymFromAddr (false, [])
    (fun pfn => W.SymFromAddr pfn (addr % 2 ^ W.ptrBits % 2 ^ 64)) (initSession W s)
  have h2 : Step Event.ofLookup (initSession W s)
      (j_SymFromAddr W (addr % 2 ^ W.ptrBits % 2 ^ 64) (initSession W s)).2 :=
    hd.1.mono (ofShim_ofLookup _ (Or.inl rfl))
  have g2 : (j_SymFromAddr W (addr % 2 ^ W.ptrBits % 2 ^ 64)
      (initSession W s)).2.g_bSymInitialized = (initSession W s).g_bSymInitialized := hd.2.1
  unfold debug_symbol_name_dbghelp
  dsimp only
  by_cases hg : (initSession W s).g_bSymInitialized = false
  · rw [if_pos hg]
    obtain ⟨m1, m2, m3, -⟩ := moduleFallback_spec W addr n (initSession W s)
    exact ⟨m1, m2, fun _ => m3⟩
  · rw [if_neg hg]
    by_cases hr : (j_SymFromAddr W (addr % 2 ^ W.ptrBits % 2 ^ 64) (initSession W s)).1.1 = false
    · rw [if_pos hr]
      obtain ⟨m1, m2, -, -⟩ := moduleFallback_spec W addr n
        (j_SymFromAddr W (addr % 2 ^ W.ptrBits % 2 ^ 64) (initSession W s)).2
      exact ⟨h2.trans m1, m2.trans g2, fun h => absurd h hg⟩
    · rw [if_neg hr]
      obtain ⟨q1, q2, -⟩ := symbolFormat_spec W (addr % 2 ^ W.ptrBits % 2 ^ 64) n
        (j_SymFromAddr W (addr % 2 ^ W.ptrBits % 2 ^ 64) (initSession W s)).1.2
        (j_SymFromAddr W (addr % 2 ^ W.ptrBits % 2 ^ 64) (initSession W s)).2
      exact ⟨h2.trans q1, q2.trans g2, fun h => absurd h hg⟩

theorem j_SymCleanup_step (W : World σ) (s : State σ) :
    Step (Event.ofShim .SymCleanup) s (j_SymCleanup W s).2 ∧
      (j_SymCleanup W s).2.g_bSymInitialized = s.g_bSymInitialized ∧
      ∀ q, q ≠ .SymCleanup → (j_SymCleanup W s).2.pfn q = s.pfn q :=
  dispatch_step W .SymCleanup false W.SymCleanup s

theorem j_SymSetOptions_step (W : World σ) (o : Nat) (s : State σ) :
    Step (Event.ofShim .SymSetOptions) s (j_SymSetOptions W o s).2 ∧
      (j_SymSetOptions W o s).2.g_bSymInitialized = s.g_bSymInitialized ∧
      ∀ q, q ≠ .SymSetOptions → (j_SymSetOptions W o s).2.pfn q = s.pfn q :=
  dispatch_step W .SymSetOptions 0 (fun pfn => W.SymSetOptions pfn o) s

theorem j_SymInitialize_step (W : World σ) (s : State σ) :
    Step (Event.ofShim .SymInitialize) s (j_SymInitialize W s).2 ∧
      (j_SymInitialize W s).2.g_bSymInitialized = s.g_bSymInitialized ∧
      ∀ q, q ≠ .SymInitialize → (j_SymInitialize W s).2.pfn q = s.pfn q :=
  dispatch_step W .SymInitialize false W.SymInitialize s

/-- A shim with a cached pointer adds exactly one call of its entry point. -/
theorem dispatch_call_count {α : Type} (W : World σ) (p : Proc) (d : α)
    (target : Nat → σ → α × σ) (s : State σ) (h : s.pfn p ≠ 0) :
    (DBGHELP_DISPATCH W p d target s).2.log.count (.call p) = s.log.count (.call p) + 1 := by
  rw [dispatch_resolved W p d target s h]
  simp

/-- While the session is not initialized, the session start runs again: the
option is read, and the set-options and initialize-session entry points are
each called once more through their cached pointers. -/
theorem initSession_attempt (W : World σ) (s : State σ) (hg : s.g_bSymInitialized = false) :
    (initSession W s).log.count .getOption = s.log.count .getOption + 1 ∧
    (s.pfn .SymSetOptions ≠ 0 → (initSession W s).log.count (.call .SymSetOptions) =
      s.log.count (.call .SymSetOptions) + 1) ∧
    (s.pfn .SymInitialize ≠ 0 → (initSession W s).log.count (.call .SymInitialize) =
      s.log.count (.call .SymInitialize) + 1) := by
  have key : ∀ s1 : State σ, s1.log.count .getOption = s.log.count .getOption + 1 →
      s1.log.count (.call .SymSetOptions) = s.log.count (.call .SymSetOptions) →
      s1.log.count (.call .SymInitialize) = s.log.count (.call .SymInitialize) →
      s1.pfn .SymSetOptions = s.pfn .SymSetOptions →
      s1.pfn .SymInitialize = s.pfn .SymInitialize →
      ∀ t : State σ,
      t.log = (j_SymInitialize W (j_SymSetOptions W SYMOPT_LOAD_LINES s1).2).2.log →
      t.log.count .getOption = s.log.count .getOption + 1 ∧
      (s.pfn .SymSetOptions ≠ 0 → t.log.count (.call .SymSetOptions) =
        s.log.count (.call .SymSetOptions) + 1) ∧
      (s.pfn .SymInitialize ≠ 0 → t.log.count (.call .SymInitialize) =
        s.log.count (.call .SymInitialize) + 1) := by
    intro s1 c1 c2 c3 p2 p3 t ht
    have a := j_SymSetOptions_step W SYMOPT_LOAD_LINES s1
    have b := j_SymInitialize_step W (j_SymSetOptions W SYMOPT_LOAD_LINES s1).2
    have pb : (j_SymSetOptions W SYMOPT_LOAD_LINES s1).2.pfn .SymInitialize =
        s.pfn .SymInitialize := (a.2.2 .SymInitialize (by decide)).trans p3
    rw [ht]
    refine ⟨?_, ?_, ?_⟩
    · rw [b.1.count_eq .getOption (by simp [Event.ofShim, Event.ofLoad])]
      exact (a.1.count_eq .getOption (by simp [Event.ofShim, Event.ofLoad])).trans c1
    · intro h
      rw [b.1.count_eq (.call .SymSetOptions) (by simp [Event.ofShim, Event.ofLoad])]
      have e : (j_SymSetOptions W SYMOPT_LOAD_LINES s1).2.log.count (.call .SymSetOptions) =
          s1.log.count (.call .SymSetOptions) + 1 :=
        dispatch_call_count W .SymSetOptions 0 _ s1 (by rw [p2]; exact h)
      rw [e, c2]
    · intro h
      have e : (j_SymInitialize W (j_SymSetOptions W SYMOPT_LOAD_LINES s1).2).2.log.count
          (.call .SymInitialize) =
          (j_SymSetOptions W SYMOPT_LOAD_LINES s1).2.log.count (.call .SymInitialize) + 1 :=
        dispatch_call_count W .SymInitialize false W.SymInitialize
          (j_SymSetOptions W SYMOPT_LOAD_LINES s1).2 (by rw [pb]; exact h)
      rw [e, a.1.count_eq (.call .SymInitialize) (by simp [Event.ofShim, Event.ofLoad]), c3]
  have h0 : ((s.emit .getOption).ext W.debug_get_bool_option).2.log = s.log ++ [.getOption] :=
    rfl
  unfold initSession
  rw [if_pos hg]
  dsimp only
  by_cases hc : ((s.emit .getOption).ext W.debug_get_bool_option).1 = true
  · have c := j_SymCleanup_step W ((s.emit .getOption).ext W.debug_get_bool_option).2
    rw [if_pos hc]
    apply key (j_SymCleanup W ((s.emit .getOption).ext W.debug_get_bool_option).2).2
    · rw [c.1.count_eq .getOption (by simp [Event.ofShim, Event.ofLoad]), h0]; simp
    · rw [c.1.count_eq (.call .SymSetOptions) (by simp [Event.ofShim, Event.ofLoad]), h0]; simp
    · rw [c.1.count_eq (.call .SymInitialize) (by simp [Event.ofShim, Event.ofLoad]), h0]; simp
    · exact c.2.2 .SymSetOptions (by decide)
    · exact c.2.2 .SymInitialize (by decide)
    · split <;> rfl
  · rw [if_neg hc]
    apply key ((s.emit .getOption).ext W.debug_get_bool_option).2
    · rw [h0]; simp
    · rw [h0]; simp
    · rw [h0]; simp
    · rfl
    · rfl
    · split <;> rfl

/-- While the session is not initialized, the session start calls the
cleanup-session entry point exactly when the force-reinit option is set. -/
theorem initSession_cleanup (W : World σ) (s : State σ) (hg : s.g_bSymInitialized = false) :
    ((W.debug_get_bool_option s.world).1 = false →
      (initSession W s).log.count (.call .SymCleanup) = s.log.count (.call .SymCleanup)) ∧
    ((W.debug_get_bool_option s.world).1 = true → s.pfn .SymCleanup ≠ 0 →
      (initSession W s).log.count (.call .SymCleanup) =
        s.log.count (.call .SymCleanup) + 1) := by
  have key : ∀ (s1 : State σ) (X : Nat), s1.log.count (.call .SymCleanup) = X →
      ∀ t : State σ,
      t.log = (j_SymInitialize W (j_SymSetOptions W SYMOPT_LOAD_LINES s1).2).2.log →
      t.log.count (.call .SymCleanup) = X := by
    intro s1 X c1 t ht
    have a := j_SymSetOptions_step W SYMOPT_LOAD_LINES s1
    have b := j_SymInitialize_step W (j_SymSetOptions W SYMOPT_LOAD_LINES s1).2
    rw [ht, b.1.count_eq (.call .SymCleanup) (by simp [Event.ofShim, Event.ofLoad]),
      a.1.count_eq (.call .SymCleanup) (by simp [Event.ofShim, Event.ofLoad]), c1]
  have h0 : ((s.emit .getOption).ext W.debug_get_bool_option).2.log = s.log ++ [.getOption] :=
    rfl
  have h1 : ((s.emit .getOption).ext W.debug_get_bool_option).1 =
      (W.debug_get_bool_option s.world).1 := rfl
  unfold initSession
  rw [if_pos hg]
  dsimp only
  by_cases hc : ((s.emit .getOption).ext W.debug_get_bool_option).1 = true
  · rw [if_pos hc]
    refine ⟨fun hf => ?_, fun _ hp => ?_⟩
    · rw [h1, hf] at hc; exact Bool.noConfusion hc
    · apply key (j_SymCleanup W ((s.emit .getOption).ext W.debug_get_bool_option).2).2
      · have e : (j_SymCleanup W ((s.emit .getOption).ext W.debug_get_bool_option).2).2.log.count
            (.call .SymCleanup) =
            ((s.emit .getOption).ext W.debug_get_bool_option).2.log.count (.call .SymCleanup) + 1 :=
          dispatch_call_count W .SymCleanup false W.SymCleanup _ hp
        rw [e, h0]; simp
      · split <;> rfl
  · rw [if_neg hc]
    refine ⟨fun _ => ?_, fun ht => ?_⟩
    · apply key ((s.emit .getOption).ext W.debug_get_bool_option).2
      · rw [h0]; simp
      · split <;> rfl
    · rw [h1, ht] at hc; exact absurd rfl hc

theorem ofLookup_not_isSessionCall (e : Event) (h : e.ofLookup = true) :
    e.isSessionCall = false := by
  cases e with
  | call p => cases p <;> simp_all [Event.ofLookup, Event.ofShim, Event.ofLoad, Event.isSessionCall]
  | _ => simp_all [Event.ofLookup, Event.ofShim, Event.ofLoad, Event.isSessionCall]


theorem search_cons (x : Nat × Nat) (ht : hash_table) (key : Nat) :
    _mesa_hash_table_search (x :: ht) key =
      if x.1 = key then some x else _mesa_hash_table_search ht key := by
  unfold _mesa_hash_table_search
  rw [List.find?_cons]
  by_cases h : x.1 = key
  · have hb : (x.1 == key) = true := by simpa using h
    rw [hb, if_pos h]
  · have hb : (x.1 == key) = false := by simpa using h
    rw [hb, if_neg h]

theorem search_some_key (ht : hash_table) (key : Nat) (e : Nat × Nat)
    (h : _mesa_hash_table_search ht key = some e) : e.1 = key ∧ e ∈ ht := by
  unfold _mesa_hash_table_search at h
  exact ⟨by simpa using List.find?_some h, List.mem_of_find?_eq_some h⟩

theorem insert_absent (ht : hash_table) (key data : Nat)
    (h : _mesa_hash_table_search ht key = none) :
    _mesa_hash_table_insert ht key data = ((key, data) :: ht, (key, data)) := by
  unfold _mesa_hash_table_insert
  rw [h]

/-- The call of `debug_symbol_name` leaves cache and heap alone and logs exactly
one entry, for its address. -/
theorem debug_symbol_name_frame (W : World σ) (addr n : Nat) (s : State σ) :
    (debug_symbol_name W addr n s).2.symbols_hash = s.symbols_hash ∧
    (debug_symbol_name W addr n s).2.heap = s.heap ∧
    (debug_symbol_name W addr n s).2.log.filter Event.isResolve =
      s.log.filter Event.isResolve ++ [.resolve addr] := by
  have h := (debug_symbol_name_spec W addr n s).1
  refine ⟨h.hash, h.heap, ?_⟩
  rw [h.filter_eq Event.isResolve]
  · simp [List.filter_append, Event.isResolve]
  · intro e he
    cases e <;>
      simp_all [Event.ofDbghelp, Event.ofSession, Event.ofLookup, Event.ofShim, Event.ofLoad,
        Event.isResolve]

theorem ensureTable_table (s : State σ) : (ensureTable s).table = s.table := by
  unfold ensureTable
  cases hh : s.symbols_hash with
  | none => simp [State.table, hh]
  | some t => simp

theorem ensureTable_heap (s : State σ) : (ensureTable s).heap = s.heap := by
  unfold ensureTable; split <;> rfl

theorem ensureTable_log (s : State σ) : (ensureTable s).log = s.log := by
  unfold ensureTable; split <;> rfl

/-- A cached lookup that finds an entry returns its data; table, heap and trace
stay as they are. -/
theorem cached_hit (W : World σ) (addr : Nat) (s : State σ) (e : Nat × Nat)
    (h : _mesa_hash_table_search s.table addr = some e) :
    (debug_symbol_name_cached W addr s).1 = e.2 ∧
    (debug_symbol_name_cached W addr s).2.table = s.table ∧
    (debug_symbol_name_cached W addr s).2.heap = s.heap ∧
    (debug_symbol_name_cached W addr s).2.log = s.log := by
  unfold debug_symbol_name_cached searchOrInsert
  rw [ensureTable_table, h]
  exact ⟨rfl, ensureTable_table s, ensureTable_heap s, ensureTable_log s⟩

/-- A cached lookup that finds no entry resolves the address once, copies the
string to a fresh block and inserts the entry. -/
theorem cached_miss (W : World σ) (addr : Nat) (s : State σ)
    (h : _mesa_hash_table_search s.table addr = none) :
    (debug_symbol_name_cached W addr s).1 = s.heap.length ∧
    (debug_symbol_name_cached W addr s).2.table = (addr, s.heap.length) :: s.table ∧
    (∃ str, (debug_symbol_name_cached W addr s).2.heap = s.heap ++ [str]) ∧
    (debug_symbol_name_cached W addr s).2.log.filter Event.isResolve =
      s.log.filter Event.isResolve ++ [.resolve addr] := by
  obtain ⟨f1, f2, f3⟩ := debug_symbol_name_frame W addr 1024 (ensureTable s)
  have t1 : ∀ l : List (List Char),
      ({ (debug_symbol_name W addr 1024 (ensureTable s)).2 with heap := l } : State σ).table
        = s.table := by
    intro l
    rw [← ensureTable_table s]; unfold State.table; rw [f1]
  unfold debug_symbol_name_cached searchOrInsert
  rw [ensureTable_table, h]
  dsimp only
  rw [t1, insert_absent _ _ _ h, f2, ensureTable_heap]
  refine ⟨rfl, rfl, ⟨_, rfl⟩, ?_⟩
  rw [f3, ensureTable_log]


/-- After a cached lookup the table holds the entry whose data was returned. -/
theorem cached_entry_after (W : World σ) (a : Nat) (s : State σ) :
    _mesa_hash_table_search (debug_symbol_name_cached W a s).2.table a =
      some (a, (debug_symbol_name_cached W a s).1) := by
  cases h : _mesa_hash_table_search s.table a with
  | none =>
    obtain ⟨c1, c2, -, -⟩ := cached_miss W a s h
    rw [c2, c1, search_cons, if_pos rfl]
  | some e =>
    obtain ⟨c1, c2, -, -⟩ := cached_hit W a s e h
    rw [c2, c1, h]
    have := (search_some_key _ _ _ h).1
    rw [← this]

/-- A stored entry is never changed by a later cached lookup, for any address. -/
theorem cached_preserves_entry (W : World σ) (a b : Nat) (s : State σ) (e : Nat × Nat)
    (h : _mesa_hash_table_search s.table a = some e) :
    _mesa_hash_table_search (debug_symbol_name_cached W b s).2.table a = some e := by
  cases hb : _mesa_hash_table_search s.table b with
  | none =>
    obtain ⟨-, c2, -, -⟩ := cached_miss W b s hb
    have hne : ¬ b = a := by
      rintro rfl
      rw [h] at hb
      exact Option.noConfusion hb
    rw [c2, search_cons, if_neg hne, h]
  | some e' =>
    obtain ⟨-, c2, -, -⟩ := cached_hit W b s e' hb
    rw [c2, h]

/-- A cached lookup for `b` leaves the slot of every other address as it is. -/
theorem cached_other_slot (W : World σ) (a b : Nat) (s : State σ) (hne : b ≠ a) :
    _mesa_hash_table_search (debug_symbol_name_cached W b s).2.table a =
      _mesa_hash_table_search s.table a := by
  cases hb : _mesa_hash_table_search s.table b with
  | none =>
    obtain ⟨-, c2, -, -⟩ := cached_miss W b s hb
    rw [c2, search_cons, if_neg hne]
  | some e' =>
    obtain ⟨-, c2, -, -⟩ := cached_hit W b s e' hb
    rw [c2]

/-- The heap only grows, at its end. -/
theorem cached_heap (W : World σ) (b : Nat) (s : State σ) :
    ∃ ext, (debug_symbol_name_cached W b s).2.heap = s.heap ++ ext := by
  cases hb : _mesa_hash_table_search s.table b with
  | none =>
    obtain ⟨-, -, ⟨str, c3⟩, -⟩ := cached_miss W b s hb
    exact ⟨[str], c3⟩
  | some e' =>
    obtain ⟨-, -, c3, -⟩ := cached_hit W b s e' hb
    exact ⟨[], by rw [c3, List.append_nil]⟩

theorem cached_WF (W : World σ) (b : Nat) (s : State σ) (h : s.WF) :
    (debug_symbol_name_cached W b s).2.WF := by
  unfold State.WF at *
  cases hb : _mesa_hash_table_search s.table b with
  | none =>
    obtain ⟨-, c2, ⟨str, c3⟩, -⟩ := cached_miss W b s hb
    rw [c2, c3]
    intro e he
    rcases List.mem_cons.1 he with rfl | he
    · simp
    · have := h e he
      simp only [List.length_append, List.length_singleton]
      omega
  | some e' =>
    obtain ⟨-, c2, c3, -⟩ := cached_hit W b s e' hb
    rw [c2, c3]; exact h

theorem cachedRun_preserves_entry (W : World σ) (a : Nat) (e : Nat × Nat) (bs : List Nat) :
    ∀ s : State σ, _mesa_hash_table_search s.table a = some e →
      _mesa_hash_table_search (cachedRun W bs s).2.table a = some e := by
  induction bs with
  | nil => intro s h; exact h
  | cons b bs ih =>
    intro s h
    exact ih _ (cached_preserves_entry W a b s e h)

theorem cachedRun_heap (W : World σ) (bs : List Nat) :
    ∀ s : State σ, ∃ ext, (cachedRun W bs s).2.heap = s.heap ++ ext := by
  induction bs with
  | nil => intro s; exact ⟨[], (List.append_nil _).symm⟩
  | cons b bs ih =>
    intro s
    obtain ⟨e1, h1⟩ := cached_heap W b s
    obtain ⟨e2, h2⟩ := ih (debug_symbol_name_cached W b s).2
    exact ⟨e1 ++ e2, by rw [cachedRun]; dsimp only; rw [h2, h1, List.append_assoc]⟩

theorem cachedRun_WF (W : World σ) (bs : List Nat) :
    ∀ s : State σ, s.WF → (cachedRun W bs s).2.WF := by
  induction bs with
  | nil => intro s h; exact h
  | cons b bs ih => intro s h; exact ih _ (cached_WF W b s h)

theorem init_WF (w : σ) : (State.init w).WF := by
  intro e he
  simp [State.table, State.init, _mesa_pointer_hash_table_create] at he


/-- Buffer discipline of `debug_symbol_name` for a capacity of at least one
byte, together with the one case in which the formatted text is empty. -/
theorem debug_symbol_name_buffer (W : World σ) (addr n : Nat)
    (s : State σ) (m : Mem) (hn : 1 ≤ n) (hn32 : n < 2 ^ 32)
    (hp : ∀ c ∈ W.fmt_p addr, c ≠ NUL) :
    ∃ T, (debug_symbol_name W addr n s).2.log.getLast? = some (.snprintf n T) ∧
      IsResolvedText W addr T ∧
      bufString (store m (debug_symbol_name W addr n s).1) n =
        T.take (min T.length (n - 1)) ∧
      store m (debug_symbol_name W addr n s).1 (min T.length (n - 1)) = NUL ∧
      min T.length (n - 1) < n ∧
      (∀ w ∈ (debug_symbol_name W addr n s).1, w.1 < n) ∧
      (T = [] → W.fmt_p addr ≠ [] →
        (initSession W (s.emit (.resolve addr))).g_bSymInitialized = true ∧
        (j_SymFromAddr W (addr % 2 ^ W.ptrBits % 2 ^ 64)
          (initSession W (s.emit (.resolve addr)))).1.1 = true ∧
        cstr (j_SymFromAddr W (addr % 2 ^ W.ptrBits % 2 ^ 64)
          (initSession W (s.emit (.resolve addr)))).1.2 = []) := by
  obtain ⟨-, T, post, e1, e2, e3, -, e5, e6⟩ := debug_symbol_name_spec W addr n s
  have hT := resolvedText_noNUL W addr T hp e5
  have hpost : ∀ w ∈ post, w = (n - 1, NUL) := by
    rcases e2 with rfl | rfl
    · simp
    · intro w hw
      rw [terminatorIndex_pos n hn hn32] at hw
      simpa using hw
  obtain ⟨d1, d2, d3⟩ := snprintf_discipline m n T post hn hT hpost
  refine ⟨T, e3, e5, ?_, ?_, ?_, ?_, e6⟩
  · rw [e1]; exact d1
  · rw [e1]; exact d2
  · have := Nat.min_le_right T.length (n - 1); omega
  · rw [e1]; exact d3

theorem bufString_nil_of_NUL (m : Mem) (n : Nat) (h : m 0 = NUL) : bufString m n = [] := by
  unfold bufString cstr
  cases n with
  | zero => rfl
  | succ k =>
    rw [List.range_succ_eq_map, List.map_cons, List.takeWhile_cons, h]
    rfl

end Frame

/-! ## The claims -/

section Claims

variable {σ : Type}

/-- C1: for every address, every state of the process and every capacity
`1 ≤ n` (an `unsigned`, hence below `2 ^ 32`), the `%p` conversion printing no
NUL, `debug_symbol_name(addr, buf, n)` formats one text `T` of one of the four
shapes; afterwards the buffer holds a NUL at index `min (length T) (n - 1)`,
inside the first `n` bytes, the string before it is exactly the first
`min (length T) (n - 1)` characters of `T`, and every store is at an index
below `n`. -/
theorem debug_symbol_name_terminates_within_capacity (W : World σ) (addr n : Nat)
    (s : State σ) (m : Mem) (hn : 1 ≤ n) (hn32 : n < 2 ^ 32)
    (hp : ∀ c ∈ W.fmt_p addr, c ≠ NUL) :
    ∃ T, (debug_symbol_name W addr n s).2.log.getLast? = some (.snprintf n T) ∧
      IsResolvedText W addr T ∧
      bufString (store m (debug_symbol_name W addr n s).1) n =
        T.take (min T.length (n - 1)) ∧
      store m (debug_symbol_name W addr n s).1 (min T.length (n - 1)) = NUL ∧
      min T.length (n - 1) < n ∧
      ∀ w ∈ (debug_symbol_name W addr n s).1, w.1 < n := by
  obtain ⟨T, h1, h2, h3, h4, h5, h6, -⟩ := debug_symbol_name_buffer W addr n s m hn hn32 hp
  exact ⟨T, h1, h2, h3, h4, h5, h6⟩

/-- C1, witness: capacity 4 for the 40-character sample name leaves its first 3
characters followed by NUL. -/
theorem debug_symbol_name_terminates_within_capacity_witness :
    (∃ T, (debug_symbol_name workingProvider 0x2000 4 (State.init ())).2.log.getLast? =
        some (.snprintf 4 T) ∧
      IsResolvedText workingProvider 0x2000 T ∧
      bufString (store sampleMem (debug_symbol_name workingProvider 0x2000 4
        (State.init ())).1) 4 = T.take (min T.length (4 - 1)) ∧
      store sampleMem (debug_symbol_name workingProvider 0x2000 4 (State.init ())).1
        (min T.length (4 - 1)) = NUL ∧
      min T.length (4 - 1) < 4 ∧
      ∀ w ∈ (debug_symbol_name workingProvider 0x2000 4 (State.init ())).1, w.1 < 4) ∧
    (debug_symbol_name workingProvider 0x2000 4 (State.init ())).1 =
      [(0, 'a'), (1, '_'), (2, 'f'), (3, NUL)] :=
  ⟨debug_symbol_name_terminates_within_capacity workingProvider 0x2000 4 (State.init ())
    sampleMem (by decide) (by decide) (toDigits_noNUL 16 0x2000), by decide⟩

/-- C2 (amended): with the provider unavailable (the loader answers NULL for
every entry point, no pointer cached, session not initialized),
`debug_symbol_name` formats the module form `"<address> at <module>+0x<offset>"`
when `GetModuleHandleEx` finds a module for the address and
`GetModuleFileNameA` does not return the full buffer size 512, and the bare
`%p` rendering of the address in every other case; with a capacity above the
length of that text the buffer holds exactly it. The session stays
uninitialized and no pointer is cached. -/
theorem provider_unavailable_module_then_raw (W : World σ) (addr n : Nat) (s : State σ)
    (m : Mem) (hload : ∀ p t, (getDbgHelpProcAddress W p t).1 = 0)
    (hpfn : ∀ q, s.pfn q = 0) (hinit : s.g_bSymInitialized = false)
    (hn32 : n < 2 ^ 32) (hp : ∀ c ∈ W.fmt_p addr, c ≠ NUL) :
    let s1 := initSession W (s.emit (.resolve addr))
    let h := W.GetModuleHandleEx addr s1.world
    let f := W.GetModuleFileNameA h.1.2 h.2
    let T := if h.1.1 = true ∧ f.1.1 ≠ SIZEOF_BUFFER then moduleText W addr f.1.2 h.1.2
      else W.fmt_p addr
    (debug_symbol_name W addr n s).2.log.getLast? = some (.snprintf n T) ∧
    (T.length < n → bufString (store m (debug_symbol_name W addr n s).1) n = T) ∧
    (debug_symbol_name W addr n s).2.g_bSymInitialized = false ∧
    ∀ q, (debug_symbol_name W addr n s).2.pfn q = 0 := by
  intro s1 h f T
  obtain ⟨g1, p1⟩ := initSession_unavailable W (s.emit (.resolve addr)) hload hpfn hinit
  have hd : debug_symbol_name_dbghelp W addr n (s.emit (.resolve addr)) =
      moduleFallback W addr n s1 := by
    unfold debug_symbol_name_dbghelp
    dsimp only
    rw [if_pos g1]
  have main : (debug_symbol_name W addr n s).1 =
        snprintf n T ++ (if h.1.1 = true ∧ f.1.1 ≠ SIZEOF_BUFFER then []
          else [(terminatorIndex n, NUL)]) ∧
      (debug_symbol_name W addr n s).2.log.getLast? = some (.snprintf n T) ∧
      (debug_symbol_name W addr n s).2.g_bSymInitialized = false ∧
      ∀ q, (debug_symbol_name W addr n s).2.pfn q = 0 := by
    unfold debug_symbol_name
    dsimp only
    rw [hd]
    unfold moduleFallback
    dsimp only
    simp only [ext_fst, emit_world, ext_world]
    by_cases c1 : (W.GetModuleHandleEx addr s1.world).1.1 = false
    · have c2 : ¬ (h.1.1 = true ∧ f.1.1 ≠ SIZEOF_BUFFER) := by
        rintro ⟨x, -⟩; rw [c1] at x; exact Bool.noConfusion x
      have hT : T = W.fmt_p addr := if_neg c2
      rw [if_pos c1, if_neg c2, hT]
      simp only [Bool.false_eq_true, if_false, List.nil_append]
      exact ⟨trivial, by simp, g1, p1⟩
    · rw [if_neg c1]
      have c1' : h.1.1 = true := by simpa using c1
      by_cases c3 : f.1.1 = SIZEOF_BUFFER
      · have c2 : ¬ (h.1.1 = true ∧ f.1.1 ≠ SIZEOF_BUFFER) := fun x => x.2 c3
        have hT : T = W.fmt_p addr := if_neg c2
        rw [if_pos c3, if_neg c2, hT]
        simp only [Bool.false_eq_true, if_false, List.nil_append]
        exact ⟨trivial, by simp, g1, p1⟩
      · have c2 : h.1.1 = true ∧ f.1.1 ≠ SIZEOF_BUFFER := ⟨c1', c3⟩
        have hT : T = moduleText W addr f.1.2 h.1.2 := if_pos c2
        rw [if_neg c3, if_pos c2, hT]
        simp only [if_true, List.append_nil]
        exact ⟨trivial, by simp, g1, p1⟩
  refine ⟨main.2.1, ?_, main.2.2⟩
  intro hlen
  have hn : 1 ≤ n := by omega
  have hT : ∀ c ∈ T, c ≠ NUL := by
    show ∀ c ∈ (if h.1.1 = true ∧ f.1.1 ≠ SIZEOF_BUFFER then moduleText W addr f.1.2 h.1.2
      else W.fmt_p addr), c ≠ NUL
    split
    · exact moduleText_noNUL W addr _ _ hp
    · exact hp
  have hpost : ∀ w ∈ (if h.1.1 = true ∧ f.1.1 ≠ SIZEOF_BUFFER then ([] : List Write)
          else [(terminatorIndex n, NUL)]), w = (n - 1, NUL) := by
    split
    · simp
    · intro w hw
      rw [terminatorIndex_pos n hn hn32] at hw
      simpa using hw
  rw [main.1, (snprintf_discipline m n T _ hn hT hpost).1]
  have : min T.length (n - 1) = T.length := by omega
  rw [this, List.take_length]


/-- C2, witness: without provider, `0x1500` inside the module loaded at `0x1000`
gives the module form and `0xDEADBEEF`, in no module, gives exactly its
hexadecimal rendering. -/
theorem provider_unavailable_module_then_raw_witness :
    (∀ p t, (getDbgHelpProcAddress noProvider p t).1 = 0) ∧
    bufString (store sampleMem (debug_symbol_name noProvider 0x1500 64
      (State.init ())).1) 64 = "1500 at C:\\mesa.dll+0x500".toList ∧
    bufString (store sampleMem (debug_symbol_name noProvider 0xDEADBEEF 64
      (State.init ())).1) 64 = "deadbeef".toList :=
  ⟨sampleWorld_loader_null false 0x2000 11,
    ((provider_unavailable_module_then_raw noProvider 0x1500 64 (State.init ()) sampleMem
      (sampleWorld_loader_null false 0x2000 11) (fun _ => rfl) rfl (by decide)
      (toDigits_noNUL 16 0x1500)).2.1 (by decide)).trans (by decide),
    ((provider_unavailable_module_then_raw noProvider 0xDEADBEEF 64 (State.init ()) sampleMem
      (sampleWorld_loader_null false 0x2000 11) (fun _ => rfl) rfl (by decide)
      (toDigits_noNUL 16 0xDEADBEEF)).2.1 (by decide)).trans (by decide)⟩

/-- C2, counterexample: without provider, `0x1500` lies in the module loaded at
`0x1000`, yet the output is the raw rendering of the address and not the
module form, because the file-name query returned the full buffer size. -/
theorem module_with_full_buffer_gives_raw :
    (∀ p t, (getDbgHelpProcAddress noProviderLongPath p t).1 = 0) ∧
    (noProviderLongPath.GetModuleHandleEx 0x1500 ()).1 = (true, 0x1000) ∧
    bufString (store sampleMem (debug_symbol_name noProviderLongPath 0x1500 64
      (State.init ())).1) 64 = noProviderLongPath.fmt_p 0x1500 ∧
    bufString (store sampleMem (debug_symbol_name noProviderLongPath 0x1500 64
      (State.init ())).1) 64 ≠
        moduleText noProviderLongPath 0x1500
          (noProviderLongPath.GetModuleFileNameA 0x1000 ()).1.2 0x1000 :=
  ⟨sampleWorld_loader_null false 0x2000 512, by decide, by decide, by decide⟩

/-- C3: when the session is initialized at the lookup and `j_SymFromAddr`
succeeds with name `N`, `debug_symbol_name` performs the single `snprintf` of
`"N at F:L"` (`L` in decimal) if `j_SymGetLineFromAddr64` succeeds with file `F` and
line `L`, and of `"N"` if it fails; with a capacity above the length of the
text the buffer holds exactly it. In both cases `debug_symbol_name_dbghelp`
returns true, no module query is made and the raw fallback (the `%p`
formatting and the store at `size - 1`) is not executed. -/
theorem symbol_found_formats_symbol_and_line (W : World σ) (addr n : Nat) (s : State σ)
    (m : Mem) (N : List Char)
    (hinit : (initSession W (s.emit (.resolve addr))).g_bSymInitialized = true)
    (hsym : (j_SymFromAddr W (addr % 2 ^ W.ptrBits % 2 ^ 64)
      (initSession W (s.emit (.resolve addr)))).1 = (true, N))
    (hN : ∀ c ∈ N, c ≠ NUL) :
    let s2 := (j_SymFromAddr W (addr % 2 ^ W.ptrBits % 2 ^ 64)
      (initSession W (s.emit (.resolve addr)))).2
    let l := (j_SymGetLineFromAddr64 W (addr % 2 ^ W.ptrBits % 2 ^ 64) s2).1
    let r := debug_symbol_name W addr n s
    (∀ F L, l = (true, some F, L) → (∀ c ∈ F, c ≠ NUL) → L < 2 ^ 32 →
      r.1 = snprintf n (N ++ " at ".toList ++ F ++ ":".toList ++ Nat.toDigits 10 L) ∧
      ((N ++ " at ".toList ++ F ++ ":".toList ++ Nat.toDigits 10 L).length < n →
        bufString (store m r.1) n =
          N ++ " at ".toList ++ F ++ ":".toList ++ Nat.toDigits 10 L)) ∧
    (l.1 = false →
      r.1 = snprintf n N ∧ (N.length < n → bufString (store m r.1) n = N)) ∧
    (debug_symbol_name_dbghelp W addr n (s.emit (.resolve addr))).1.1 = true ∧
    r.2.log.filter Event.isModuleQuery = s.log.filter Event.isModuleQuery ∧
    ∃ T, r.2.log.filter Event.isSnprintf = s.log.filter Event.isSnprintf ++ [.snprintf n T] ∧
      r.1 = snprintf n T := by
  intro s2 l r
  have hd : debug_symbol_name_dbghelp W addr n (s.emit (.resolve addr)) =
      symbolFormat W (addr % 2 ^ W.ptrBits % 2 ^ 64) n N s2 := by
    unfold debug_symbol_name_dbghelp
    dsimp only
    rw [if_neg (by rw [hinit]; simp), if_neg (by rw [hsym]; simp), hsym]
  obtain ⟨-, -, T, q3, -, q5, q6, q7⟩ :=
    symbolFormat_spec W (addr % 2 ^ W.ptrBits % 2 ^ 64) n N s2
  have hr1 : r.1 = snprintf n T := by
    show (debug_symbol_name W addr n s).1 = _
    unfold debug_symbol_name
    dsimp only
    rw [hd, q3]
    simp
  have hr2 : r.2 = (symbolFormat W (addr % 2 ^ W.ptrBits % 2 ^ 64) n N s2).2 := by
    show (debug_symbol_name W addr n s).2 = _
    unfold debug_symbol_name
    dsimp only
    rw [hd, q3]
    simp
  have f1 : (initSession W (s.emit (.resolve addr))).log.filter Event.isSnprintf =
      s.log.filter Event.isSnprintf := by
    rw [(initSession_step W _).filter_eq _ ofSession_not_isSnprintf]
    simp [List.filter_append, Event.isSnprintf]
  have f2 : s2.log.filter Event.isSnprintf = s.log.filter Event.isSnprintf := by
    rw [← f1]
    exact (dispatch_step W .SymFromAddr (false, []) _ _).1.filter_eq _ (ofShim_not_isSnprintf _)
  have g1 : (initSession W (s.emit (.resolve addr))).log.filter Event.isModuleQuery =
      s.log.filter Event.isModuleQuery := by
    rw [(initSession_step W _).filter_eq _ ofSession_not_isModuleQuery]
    simp [List.filter_append, Event.isModuleQuery]
  have g2 : s2.log.filter Event.isModuleQuery = s.log.filter Event.isModuleQuery := by
    rw [← g1]
    exact (dispatch_step W .SymFromAddr (false, []) _ _).1.filter_eq _
      (ofShim_not_isModuleQuery _)
  refine ⟨?_, ?_, by rw [hd, q3], by rw [hr2, q6, g2], T, by rw [hr2, q5, f2], hr1⟩
  · intro F L hl hF hL
    have hT : T = N ++ " at ".toList ++ F ++ ":".toList ++ Nat.toDigits 10 L := by
      rw [q7, show j_SymGetLineFromAddr64 W (addr % 2 ^ W.ptrBits % 2 ^ 64) s2 = (l, _) from rfl]
      rw [hl]
      simp only [Bool.true_eq_false, if_false]
      exact symbolLineText_of_noNUL N F L hN hF hL
    rw [← hT]
    refine ⟨hr1, fun hlen => ?_⟩
    rw [hr1]
    exact snprintf_whole m n T (by rw [q7]; split; exact symbolLineText_noNUL _ _ _; exact cstr_noNUL _) hlen
  · intro hl
    have hT : T = N := by
      rw [q7, show (j_SymGetLineFromAddr64 W (addr % 2 ^ W.ptrBits % 2 ^ 64) s2).1.1 = false from hl]
      simp only [if_true]
      exact cstr_of_noNUL N hN
    rw [← hT]
    refine ⟨hr1, fun hlen => ?_⟩
    rw [hr1]
    exact snprintf_whole m n T (by rw [hT]; exact hN) hlen


/-- C3, witness: with the session started, the symbol at `0x2004` has line
information and the symbol at `0x2000` has none. -/
theorem symbol_found_formats_symbol_and_line_witness :
    bufString (store sampleMem (debug_symbol_name workingProvider 0x2004 64
      (State.init ())).1) 64 = "main at u_debug_symbol.c:240".toList ∧
    bufString (store sampleMem (debug_symbol_name workingProvider 0x2000 64
      (State.init ())).1) 64 = "a_function_name_that_is_forty_chars_long".toList :=
  ⟨(((symbol_found_formats_symbol_and_line workingProvider 0x2004 64 (State.init ())
      sampleMem "main".toList (by decide) (by decide) (by decide)).1
        "u_debug_symbol.c".toList 240 (by decide) (by decide) (by decide)).2
          (by decide)).trans (by decide),
    ((symbol_found_formats_symbol_and_line workingProvider 0x2000 64 (State.init ())
      sampleMem sampleName (by decide) (by decide) (by decide)).2.1 (by decide)).2
        (by decide)⟩

/-- C4: from process start, after any cached lookups `pre`, take a lookup for
`a` and, after any further cached lookups `mid` (for `a` or other addresses,
whatever the provider answers meanwhile), another lookup for `a`. The second
returns the same pointer as the first, the string stored there is still the
same, and nothing is resolved again. Moreover a lookup for `b ≠ a` never
changes the entry stored for `a`. -/
theorem cached_lookup_is_stable (W : World σ) (w : σ) (pre mid : List Nat) (a : Nat) :
    let s1 := (cachedRun W pre (State.init w)).2
    let r1 := debug_symbol_name_cached W a s1
    let s2 := (cachedRun W mid r1.2).2
    let r2 := debug_symbol_name_cached W a s2
    r2.1 = r1.1 ∧
    (∃ str, r1.2.deref r1.1 = some str ∧ r2.2.deref r2.1 = some str) ∧
    r2.2.log = s2.log ∧
    ∀ (t : State σ) (b : Nat), b ≠ a →
      _mesa_hash_table_search (debug_symbol_name_cached W b t).2.table a =
        _mesa_hash_table_search t.table a := by
  intro s1 r1 s2 r2
  have e1 : _mesa_hash_table_search r1.2.table a = some (a, r1.1) := cached_entry_after W a s1
  have e2 : _mesa_hash_table_search s2.table a = some (a, r1.1) :=
    cachedRun_preserves_entry W a _ mid _ e1
  obtain ⟨c1, -, c3, c4⟩ := cached_hit W a s2 _ e2
  have wf1 : r1.2.WF := cached_WF W a s1 (cachedRun_WF W pre _ (init_WF w))
  have hlt : r1.1 < r1.2.heap.length := wf1 _ (search_some_key _ _ _ e1).2
  obtain ⟨ext, hext⟩ := cachedRun_heap W mid r1.2
  refine ⟨c1, ⟨r1.2.heap[r1.1], ?_, ?_⟩, c4, fun t b hne => cached_other_slot W a b t hne⟩
  · unfold State.deref
    exact List.getElem?_eq_getElem hlt
  · unfold State.deref
    rw [c1, c3, hext, List.getElem?_append_left hlt]
    exact List.getElem?_eq_getElem hlt

/-- C6 (amended): only a successful session start is terminal. Once
`g_bSymInitialized` is set, a call of `debug_symbol_name` keeps it set, does not
read the force-reinit option and calls none of the provider's
initialize-session, set-options and cleanup-session entry points. While the
flag is clear (also after a failed attempt) every call runs the session start
again: it reads the option and, the shims' pointers being resolved, calls the
set-options and the initialize-session entry point once more each, and the
cleanup-session entry point once more exactly when the option is set; when the
flag is still clear afterwards the call makes the module query of the
fallback. -/
theorem session_start_repeats_until_success (W : World σ) (addr n : Nat) (s : State σ) :
    (s.g_bSymInitialized = true →
      (debug_symbol_name W addr n s).2.g_bSymInitialized = true ∧
      (debug_symbol_name W addr n s).2.log.filter Event.isSessionCall =
        s.log.filter Event.isSessionCall ∧
      (debug_symbol_name W addr n s).2.log.count .getOption = s.log.count .getOption) ∧
    (s.g_bSymInitialized = false →
      (debug_symbol_name W addr n s).2.log.count .getOption = s.log.count .getOption + 1 ∧
      (s.pfn .SymSetOptions ≠ 0 →
        (debug_symbol_name W addr n s).2.log.count (.call .SymSetOptions) =
          s.log.count (.call .SymSetOptions) + 1) ∧
      (s.pfn .SymInitialize ≠ 0 →
        (debug_symbol_name W addr n s).2.log.count (.call .SymInitialize) =
          s.log.count (.call .SymInitialize) + 1) ∧
      ((W.debug_get_bool_option s.world).1 = false →
        (debug_symbol_name W addr n s).2.log.count (.call .SymCleanup) =
          s.log.count (.call .SymCleanup)) ∧
      ((W.debug_get_bool_option s.world).1 = true → s.pfn .SymCleanup ≠ 0 →
        (debug_symbol_name W addr n s).2.log.count (.call .SymCleanup) =
          s.log.count (.call .SymCleanup) + 1) ∧
      ((debug_symbol_name W addr n s).2.g_bSymInitialized = false →
        (debug_symbol_name W addr n s).2.log.count (.moduleHandle addr) =
          s.log.count (.moduleHandle addr) + 1)) := by
  obtain ⟨l1, l2, l3⟩ := debug_symbol_name_dbghelp_lookup W addr n (s.emit (.resolve addr))
  -- the state and trace of `debug_symbol_name` are those of the dbghelp part,
  -- followed on the raw path by the `snprintf` event
  have hlog : ∀ x : Event, x.isSnprintf = false →
      (debug_symbol_name W addr n s).2.log.count x =
        (debug_symbol_name_dbghelp W addr n (s.emit (.resolve addr))).2.log.count x := by
    intro x hx
    unfold debug_symbol_name
    dsimp only
    split
    · rfl
    · rw [emit_log, List.count_append]
      have : [Event.snprintf n (W.fmt_p addr)].count x = 0 := by
        rw [List.count_eq_zero]
        intro hm
        simp at hm
        subst hm
        simp [Event.isSnprintf] at hx
      rw [this, Nat.add_zero]
  have hfil : (debug_symbol_name W addr n s).2.log.filter Event.isSessionCall =
      (debug_symbol_name_dbghelp W addr n (s.emit (.resolve addr))).2.log.filter
        Event.isSessionCall := by
    unfold debug_symbol_name
    dsimp only
    split
    · rfl
    · simp [List.filter_append, Event.isSessionCall]
  have hgf : (debug_symbol_name W addr n s).2.g_bSymInitialized =
      (debug_symbol_name_dbghelp W addr n (s.emit (.resolve addr))).2.g_bSymInitialized := by
    unfold debug_symbol_name
    dsimp only
    split <;> rfl
  refine ⟨fun hg => ?_, fun hg => ?_⟩
  · have hi := initSession_of_initialized W (s.emit (.resolve addr)) hg
    rw [hi] at l1 l2
    refine ⟨by rw [hgf, l2]; exact hg, ?_, ?_⟩
    · rw [hfil, l1.filter_eq _ ofLookup_not_isSessionCall]
      simp [List.filter_append, Event.isSessionCall]
    · rw [hlog .getOption rfl, l1.count_eq _ (by simp [Event.ofLookup, Event.ofShim, Event.ofLoad])]
      simp
  · obtain ⟨a1, a2, a3⟩ := initSession_attempt W (s.emit (.resolve addr)) hg
    obtain ⟨b1, b2⟩ := initSession_cleanup W (s.emit (.resolve addr)) hg
    refine ⟨?_, fun h => ?_, fun h => ?_, fun h => ?_, fun h hp => ?_, fun h => ?_⟩
    · rw [hlog .getOption rfl, l1.count_eq _ (by simp [Event.ofLookup, Event.ofShim, Event.ofLoad]), a1]
      simp
    · rw [hlog (.call .SymSetOptions) rfl,
        l1.count_eq _ (by simp [Event.ofLookup, Event.ofShim, Event.ofLoad]), a2 h]
      simp
    · rw [hlog (.call .SymInitialize) rfl,
        l1.count_eq _ (by simp [Event.ofLookup, Event.ofShim, Event.ofLoad]), a3 h]
      simp
    · rw [hlog (.call .SymCleanup) rfl,
        l1.count_eq _ (by simp [Event.ofLookup, Event.ofShim, Event.ofLoad]), b1 h]
      simp
    · rw [hlog (.call .SymCleanup) rfl,
        l1.count_eq _ (by simp [Event.ofLookup, Event.ofShim, Event.ofLoad]), b2 h hp]
      simp
    · rw [hgf, l2] at h
      rw [hlog (.moduleHandle addr) rfl, l3 h,
        (initSession_step W _).count_eq _ (by simp [Event.ofSession, Event.ofShim, Event.ofLoad])]
      simp


/-- C6, witness: on the process whose session cannot be started, a second
lookup calls the initialize-session entry point once more; on the process whose
session starts, a second lookup makes no session call. -/
theorem session_start_repeats_until_success_witness :
    (nameRun failingSession [(0x1500, 64)] (State.init ())).g_bSymInitialized = false ∧
    (debug_symbol_name failingSession 0x1500 64
      (nameRun failingSession [(0x1500, 64)] (State.init ()))).2.log.count
        (.call .SymInitialize) =
      (nameRun failingSession [(0x1500, 64)] (State.init ())).log.count
        (.call .SymInitialize) + 1 ∧
    (debug_symbol_name workingProvider 0x1500 64
      (nameRun workingProvider [(0x1500, 64)] (State.init ()))).2.log.filter
        Event.isSessionCall =
      (nameRun workingProvider [(0x1500, 64)] (State.init ())).log.filter
        Event.isSessionCall :=
  ⟨by decide,
    ((session_start_repeats_until_success failingSession 0x1500 64
      (nameRun failingSession [(0x1500, 64)] (State.init ()))).2 (by decide)).2.2.1
        (by decide),
    ((session_start_repeats_until_success workingProvider 0x1500 64
      (nameRun workingProvider [(0x1500, 64)] (State.init ()))).1 (by decide)).2.1⟩

/-- C6, counterexample: the first lookup attempts the session start and fails
(one call of `SymInitialize`, flag still clear); the second lookup calls the
provider's `SymSetOptions` and `SymInitialize` again. -/
theorem failed_session_start_is_attempted_again :
    (nameRun failingSession [(0x1500, 64)] (State.init ())).g_bSymInitialized = false ∧
    (nameRun failingSession [(0x1500, 64)] (State.init ())).log.count
      (.call .SymInitialize) = 1 ∧
    (nameRun failingSession [(0x1500, 64)] (State.init ())).log.count
      (.call .SymSetOptions) = 1 ∧
    (debug_symbol_name failingSession 0x1500 64
      (nameRun failingSession [(0x1500, 64)] (State.init ()))).2.log.count
        (.call .SymInitialize) = 2 ∧
    (debug_symbol_name failingSession 0x1500 64
      (nameRun failingSession [(0x1500, 64)] (State.init ()))).2.log.count
        (.call .SymSetOptions) = 2 := by
  decide

/-- C7 (amended): a shim caches only a found entry point. (a) Once its pointer is
non-NULL, no later call of the shim consults `getDbgHelpProcAddress` and the
pointer stays. (b) A call made while the pointer is NULL consults the loader
exactly once and stores its answer; when that answer is NULL the call returns
the safe default. (c) The NULL answer is not remembered: as long as the loader
answers NULL, each of `k` calls consults it again. -/
theorem shim_caches_only_found_entry_point {α : Type} (W : World σ) (p : Proc) (d : α)
    (target : Nat → σ → α × σ) (s : State σ) (k : Nat) :
    (s.pfn p ≠ 0 →
      (dispatchRun W p d target k s).log.count (.loader p) = s.log.count (.loader p) ∧
      (dispatchRun W p d target k s).pfn p = s.pfn p ∧
      DBGHELP_DISPATCH W p d target s = (s.emit (.call p)).ext (target (s.pfn p))) ∧
    (s.pfn p = 0 →
      (DBGHELP_DISPATCH W p d target s).2.log.count (.loader p) = s.log.count (.loader p) + 1 ∧
      (DBGHELP_DISPATCH W p d target s).2.pfn p = (getDbgHelpProcAddress W p s).1 ∧
      ((getDbgHelpProcAddress W p s).1 = 0 → (DBGHELP_DISPATCH W p d target s).1 = d)) ∧
    (s.pfn p = 0 → (∀ t, (getDbgHelpProcAddress W p t).1 = 0) →
      (dispatchRun W p d target k s).log.count (.loader p) = s.log.count (.loader p) + k) := by
  refine ⟨fun h => ?_, fun h => ?_, fun h hW => ?_⟩
  · have := dispatchRun_resolved W p d target k s h
    exact ⟨this.1, this.2, dispatch_resolved W p d target s h⟩
  · have hu := dispatch_unresolved W p d target s h
    refine ⟨dispatch_loader_count_unresolved W p d target s h, ?_, fun h0 => (hu.2.1 h0).1⟩
    rw [hu.1]; simp
  · exact dispatchRun_unresolved W p d target hW k s h

/-- C7, witness: on a process without provider three calls of `j_SymInitialize`
consult the loader three times; with the provider loaded, three calls consult it
once. -/
theorem shim_caches_only_found_entry_point_witness :
    (dispatchRun noProvider .SymInitialize false noProvider.SymInitialize 3
        (State.init ())).log.count (.loader .SymInitialize) = 0 + 3 ∧
    (dispatchRun workingProvider .SymInitialize false workingProvider.SymInitialize 2
        (DBGHELP_DISPATCH workingProvider .SymInitialize false workingProvider.SymInitialize
          (State.init ())).2).log.count (.loader .SymInitialize) = 1 :=
  ⟨(shim_caches_only_found_entry_point noProvider .SymInitialize false
      noProvider.SymInitialize (State.init ()) 3).2.2 rfl
      (sampleWorld_loader_null false 0x2000 11 .SymInitialize),
    by decide⟩

/-- C7, counterexample: without a provider, two calls of `j_SymInitialize`
consult the loader twice, not once. -/
theorem shim_consults_loader_again_when_not_found :
    (dispatchRun noProvider .SymInitialize false noProvider.SymInitialize 2
        (State.init ())).log.count (.loader .SymInitialize) = 2 := by
  decide

/-- C9 (amended): for every address, every state of the process and every
capacity of at least two bytes, the string `debug_symbol_name` leaves in the
buffer is non-empty (its first byte is not NUL), unless the session is
initialized and the provider's symbol lookup succeeded with an empty name. With
a capacity of one byte the first byte is the terminator. -/
theorem nonempty_string_with_capacity_two (W : World σ) (addr n : Nat) (s : State σ)
    (m : Mem) (hn : 1 ≤ n) (hn32 : n < 2 ^ 32) (hp : ∀ c ∈ W.fmt_p addr, c ≠ NUL)
    (hp0 : W.fmt_p addr ≠ []) :
    (2 ≤ n →
      store m (debug_symbol_name W addr n s).1 0 ≠ NUL ∨
      ((initSession W (s.emit (.resolve addr))).g_bSymInitialized = true ∧
        (j_SymFromAddr W (addr % 2 ^ W.ptrBits % 2 ^ 64)
          (initSession W (s.emit (.resolve addr)))).1.1 = true ∧
        cstr (j_SymFromAddr W (addr % 2 ^ W.ptrBits % 2 ^ 64)
          (initSession W (s.emit (.resolve addr)))).1.2 = [])) ∧
    (n = 1 → store m (debug_symbol_name W addr n s).1 0 = NUL) := by
  obtain ⟨T, -, -, e3, e4, -, -, e7⟩ :=
    debug_symbol_name_buffer W addr n s m hn hn32 hp
  refine ⟨fun h2 => ?_, fun h1 => ?_⟩
  · by_cases hT : T = []
    · exact Or.inr (e7 hT hp0)
    · refine Or.inl (fun h0 => ?_)
      rw [bufString_nil_of_NUL _ n h0] at e3
      have hl := congrArg List.length e3
      have hpos : 0 < T.length := List.length_pos.2 hT
      rw [List.length_nil, List.length_take] at hl
      omega
  · have : min T.length (n - 1) = 0 := by omega
    rw [this] at e4
    exact e4

/-- C9, witness: with 64 bytes the string for `0xDEADBEEF` starts with `d`. -/
theorem nonempty_string_with_capacity_two_witness :
    store sampleMem (debug_symbol_name noProvider 0xDEADBEEF 64 (State.init ())).1 0 ≠ NUL :=
  ((nonempty_string_with_capacity_two noProvider 0xDEADBEEF 64 (State.init ()) sampleMem
    (by decide) (by decide) (toDigits_noNUL 16 0xDEADBEEF) (by decide)).1
      (by decide)).resolve_right (by decide)

/-- C9, counterexample: with a capacity of one byte the first byte of the
buffer is NUL, so the string is empty. -/
theorem empty_string_with_capacity_one :
    store sampleMem (debug_symbol_name noProvider 0xDEADBEEF 1 (State.init ())).1 0 = NUL ∧
    bufString (store sampleMem (debug_symbol_name noProvider 0xDEADBEEF 1
      (State.init ())).1) 1 = [] := by
  decide

/-- C10, failing input: with `size = 0` the raw path stores the terminator at
index `4294967295`, which is not below `size`; `snprintf` itself stores
nothing. -/
theorem terminator_store_outside_empty_buffer :
    terminatorIndex 0 = 4294967295 ∧ ¬ terminatorIndex 0 < 0 ∧
    snprintf 0 (noProvider.fmt_p 0xDEADBEEF) = [] ∧
    (debug_symbol_name noProvider 0xDEADBEEF 0 (State.init ())).1 = [(4294967295, NUL)] := by
  decide

end Claims

end DebugSymbol
